import Mathlib

/-!
# Verification of the ScalpX VIP reconciliation bot

Shallow embedding of `src/index.js`: the entitlement store (`vip_users`
SQLite table), the roster ingestor (`getEligibilityMap`), the trial
lifecycle (`ensureTrialRecordFor`, `grantTrialOnJoin`), the three-phase
reconciliation pass (`syncFromSheetOptimised`), the status query and the
hourly cleanup job.

Modelling conventions:
* Timestamps (milliseconds since epoch) are `Nat`; the pass-time clock
  `Date.now()` is a fixed parameter `now` (the code may observe a slightly
  advancing clock during a pass; none of the verified properties depend on
  that drift).
* The `vip_users` table is an association list keyed by `user_id`
  (a SQLite PRIMARY KEY, so keys are unique); `INSERT OR REPLACE` and
  `UPDATE` are an upsert that replaces the (unique) matching entry in place.
* The Discord guild is a list of members; `fetchMemberSafe` is a lookup
  that never fails (it returns `none` for an unknown member, as in the
  source). The VIP role is a set of member ids holding it; `VIP_ROLE_ID`
  is assumed to resolve (`getVipRole` succeeding is an environment
  precondition shared by every path modelled here).
* A rejected platform role mutation is modelled by the environment
  predicates `grantFails` / `removeFails`: `member.roles.add(role)`
  throws when `grantFails member.id`, and `member.roles.remove(role)`
  throws when `removeFails member.id`.  Where the source attaches
  `.catch(() => {})` the rejection is swallowed; elsewhere it propagates
  as an `Except.error`.
* Errors carry the state reached so far, since the JavaScript `finally`
  block still runs (clearing the single-flight flag) after a throw.
-/

namespace ScalpX

/-- `ONE_MONTH` (src/index.js line 8): 30 days in milliseconds. -/
def ONE_MONTH : Nat := 30 * 24 * 60 * 60 * 1000

/-- `LIFETIME_UNTIL` (line 9): far-future sentinel denoting lifetime VIP. -/
def LIFETIME_UNTIL : Nat := 32503680000000

/-- One row of the `vip_users` table (lines 20-26). -/
structure Row where
  vip_until : Nat
  trial_until : Nat
deriving DecidableEq, Repr

/-- The `vip_users` table: association list keyed by `user_id` (PRIMARY KEY). -/
abbrev Db := List (String × Row)

/-- `SELECT ... WHERE user_id=?` : first (unique) entry with the key. -/
def dbGet : Db → String → Option Row
  | [], _ => none
  | (k, v) :: rest, id => if k = id then some v else dbGet rest id

/-- `INSERT OR REPLACE` / keyed `UPDATE`: replace the matching entry in
place, or append when absent. -/
def dbUpsert : Db → String → Row → Db
  | [], id, r => [(id, r)]
  | (k, v) :: rest, id, r =>
      if k = id then (id, r) :: rest else (k, v) :: dbUpsert rest id r

/-- Stored `vip_until`, `0` when no record exists (matching the
`row.vip_until || 0` convention of the source). -/
def vipOf (db : Db) (id : String) : Nat :=
  match dbGet db id with
  | some r => r.vip_until
  | none => 0

/-- Stored `trial_until`, `none` when no record exists. -/
def trialOf (db : Db) (id : String) : Option Nat :=
  (dbGet db id).map (fun r => r.trial_until)

/-- A guild member as the engine sees it: snowflake id and
`joinedTimestamp` (`0` models a missing / falsy `joinedTimestamp`). -/
structure Member where
  id : String
  joined : Nat
deriving DecidableEq, Repr

/-- `fetchMemberSafe` (lines 105-111): lookup by id, `none` if not found,
never throws. -/
def fetchMemberSafe : List Member → String → Option Member
  | [], _ => none
  | m :: rest, id => if m.id = id then some m else fetchMemberSafe rest id

/-- The transient eligibility map: `discord_id -> approved`, insertion
ordered with `Map.set` updating an existing key in place. -/
abbrev EligMap := List (String × Bool)

/-- `Map.set`: update the existing key in place, else append. -/
def eligSet : EligMap → String → Bool → EligMap
  | [], id, b => [(id, b)]
  | (k, v) :: rest, id, b =>
      if k = id then (id, b) :: rest else (k, v) :: eligSet rest id b

/-- `Map.get`: value of the first (unique) matching key. -/
def eligGet : EligMap → String → Option Bool
  | [], _ => none
  | (k, v) :: rest, id => if k = id then some v else eligGet rest id

/-- ASCII case mapping: the JS `toLowerCase`/`toUpperCase` as the roster
parser uses them (header tokens and the approval literal are ASCII),
defined over the character data so that they evaluate in the kernel. -/
def charLower (c : Char) : Char :=
  if 65 ≤ c.toNat ∧ c.toNat ≤ 90 then Char.ofNat (c.toNat + 32) else c

def charUpper (c : Char) : Char :=
  if 97 ≤ c.toNat ∧ c.toNat ≤ 122 then Char.ofNat (c.toNat - 32) else c

def sLower (s : String) : String := ⟨s.data.map charLower⟩

def sUpper (s : String) : String := ⟨s.data.map charUpper⟩

/-- Whitespace for `String.prototype.trim` (space, tab, newline, CR). -/
def wsChar (c : Char) : Bool := c = ' ' ∨ c = '\t' ∨ c = '\n' ∨ c = '\r'

/-- `String.prototype.trim`: strip leading and trailing whitespace. -/
def sTrim (s : String) : String :=
  ⟨((s.data.dropWhile wsChar).reverse.dropWhile wsChar).reverse⟩

/-- `getEligibilityMap` (lines 69-91): build the eligibility map from the
raw sheet rows.  Fewer than two rows yield an empty map; otherwise the
header row (lower-cased, trimmed) must contain `discord_id` and
`lifetime_vip` columns or the call throws.  Data rows with an empty
(trimmed) id are skipped; approval is an exact match of the trimmed,
upper-cased cell against `"YES"`; later duplicate ids overwrite earlier
ones. -/
def getEligibilityMap (rows : List (List String)) : Except String EligMap :=
  if rows.length < 2 then .ok []
  else
    let headers := (rows.headD []).map (fun h => sTrim (sLower h))
    match headers.findIdx? (fun h => h = "discord_id") with
    | none => .error "discord_id column not found in sheet headers"
    | some discordIdx =>
      match headers.findIdx? (fun h => h = "lifetime_vip") with
      | none => .error "lifetime_vip column not found in sheet headers"
      | some lifetimeIdx =>
        .ok <| (rows.drop 1).foldl
          (fun m row =>
            let id := sTrim (row.getD discordIdx "")
            if id = "" then m
            else
              let val := sUpper (sTrim (row.getD lifetimeIdx ""))
              eligSet m id (val = "YES"))
          []

/-- Mutable world state the engine touches: the single-flight flag
`syncRunning` (line 205), the `vip_users` table, and the set of member
ids currently holding the VIP role. -/
structure St where
  running : Bool
  db : Db
  roles : List String
deriving DecidableEq, Repr

/-- `member.roles.add(role)` after success: the member holds the role. -/
def rolesAdd (roles : List String) (id : String) : List String :=
  if roles.contains id then roles else id :: roles

/-- `member.roles.remove(role)` after success. -/
def rolesRemove (roles : List String) (id : String) : List String :=
  roles.filter (fun x => x ≠ id)

/-- Environment of a pass: sheet rows, guild, frozen clock, and which
role mutations the platform rejects. -/
structure Env where
  rows : List (List String)
  guild : List Member
  now : Nat
  grantFails : String → Bool
  removeFails : String → Bool

/-- `ensureTrialRecordFor` (lines 114-138).  Reads the member's row; when
absent, inserts `(joined+30d, joined+30d)` (falling back to `now` for a
falsy `joinedTimestamp`); when present with a zero `trial_until`,
backfills it from a live non-lifetime `vip_until` or the 30-day fallback
(leaving `vip_until` untouched); otherwise returns the row unchanged. -/
def ensureTrialRecordFor (now : Nat) (m : Member) (st : St) : Row × St :=
  let joinedTs := if m.joined ≠ 0 then m.joined else now
  let fallbackTrialUntil := joinedTs + ONE_MONTH
  match dbGet st.db m.id with
  | none =>
      (⟨fallbackTrialUntil, fallbackTrialUntil⟩,
        { st with db := dbUpsert st.db m.id ⟨fallbackTrialUntil, fallbackTrialUntil⟩ })
  | some row =>
      if row.trial_until = 0 then
        let trialUntil :=
          if row.vip_until ≠ 0 ∧ row.vip_until > now ∧ row.vip_until < LIFETIME_UNTIL
          then row.vip_until else fallbackTrialUntil
        (⟨row.vip_until, trialUntil⟩,
          { st with db := dbUpsert st.db m.id ⟨row.vip_until, trialUntil⟩ })
      else (row, st)

/-- `grantTrialOnJoin` (lines 140-152): unconditionally grant the role
(uncaught on rejection) and overwrite the record with a fresh 30-day
window; returns the new `trialUntil`. -/
def grantTrialOnJoin (gFail : String → Bool) (now : Nat) (m : Member) (st : St) :
    (Except String Nat) × St :=
  if gFail m.id then (.error "roles.add failed", st)
  else
    let trialUntil := now + ONE_MONTH
    (.ok trialUntil,
      { st with
        roles := rolesAdd st.roles m.id
        db := dbUpsert st.db m.id ⟨trialUntil, trialUntil⟩ })

/-- `setVipLifetime` (lines 154-165): add the role (uncaught on
rejection), ensure a trial record, then upsert `vip_until = LIFETIME`
preserving (or defaulting) `trial_until`. -/
def setVipLifetime (gFail : String → Bool) (now : Nat) (m : Member) (st : St) :
    (Except String Unit) × St :=
  if gFail m.id then (.error "roles.add failed", st)
  else
    let st1 := { st with roles := rolesAdd st.roles m.id }
    let (existing, st2) := ensureTrialRecordFor now m st1
    let trialUntil := if existing.trial_until ≠ 0 then existing.trial_until else now + ONE_MONTH
    (.ok (),
      { st2 with db := dbUpsert st2.db m.id ⟨LIFETIME_UNTIL, trialUntil⟩ })

/-- `setVipToTrialRemainingOrRemove` (lines 167-194): if the (ensured)
trial window is still in the future, keep the role (uncaught add) and set
`vip_until = trial_until`; otherwise remove the role if held (rejection
swallowed by `.catch`) and set `vip_until = 0`, keeping `trial_until`. -/
def setVipToTrialRemainingOrRemove (gFail rFail : String → Bool) (now : Nat)
    (m : Member) (st : St) : (Except String (Bool × Nat)) × St :=
  let (existing, st1) := ensureTrialRecordFor now m st
  let trialUntil := existing.trial_until
  if trialUntil > now then
    if gFail m.id then (.error "roles.add failed", st1)
    else
      (.ok (true, trialUntil),
        { st1 with
          roles := rolesAdd st1.roles m.id
          db := dbUpsert st1.db m.id ⟨trialUntil, trialUntil⟩ })
  else
    let roles1 :=
      if st1.roles.contains m.id then
        if rFail m.id then st1.roles else rolesRemove st1.roles m.id
      else st1.roles
    (.ok (false, trialUntil),
      { st1 with
        roles := roles1
        db := dbUpsert st1.db m.id ⟨0, trialUntil⟩ })

/-- `removeVipIfHas` (lines 196-201): remove the role if held; a platform
rejection is swallowed by `.catch`. -/
def removeVipIfHas (rFail : String → Bool) (m : Member) (st : St) : St :=
  if st.roles.contains m.id then
    if rFail m.id then st else { st with roles := rolesRemove st.roles m.id }
  else st

/-- Summary counters returned by a completed pass (line 269). -/
structure SyncSummary where
  lifetimeEnsured : Nat
  lifetimeDowngraded : Nat
  expiredRemoved : Nat
  totalSheet : Nat
deriving DecidableEq, Repr

/-- Result of `syncFromSheetOptimised`: `{skipped:true}` or the summary. -/
inductive SyncResult where
  | skipped
  | done (s : SyncSummary)
deriving DecidableEq, Repr

/-- Phase 1 (lines 228-237): for each approved entry of the eligibility
map, fetch the member (skip when absent) and `setVipLifetime`; a thrown
role-add rejection aborts the loop. -/
def grantPhase (guild : List Member) (gFail : String → Bool) (now : Nat) :
    EligMap → Nat → St → (Except String Nat) × St
  | [], n, st => (.ok n, st)
  | (_, false) :: rest, n, st => grantPhase guild gFail now rest n st
  | (userId, true) :: rest, n, st =>
    match fetchMemberSafe guild userId with
    | none => grantPhase guild gFail now rest n st
    | some m =>
      match setVipLifetime gFail now m st with
      | (.error e, st1) => (.error e, st1)
      | (.ok _, st1) => grantPhase guild gFail now rest (n + 1) st1

/-- Phase 2 (lines 240-250): for each id that was at lifetime in the
pre-pass store snapshot but is not approved (`get(id) === true` fails),
fetch the member (skip when absent) and `setVipToTrialRemainingOrRemove`. -/
def downgradePhase (guild : List Member) (gFail rFail : String → Bool) (now : Nat)
    (eligibility : EligMap) :
    List String → Nat → St → (Except String Nat) × St
  | [], n, st => (.ok n, st)
  | userId :: rest, n, st =>
    match eligGet eligibility userId with
    | some true => downgradePhase guild gFail rFail now eligibility rest n st
    | _ =>
      match fetchMemberSafe guild userId with
      | none => downgradePhase guild gFail rFail now eligibility rest n st
      | some m =>
        match setVipToTrialRemainingOrRemove gFail rFail now m st with
        | (.error e, st1) => (.error e, st1)
        | (.ok _, st1) => downgradePhase guild gFail rFail now eligibility rest (n + 1) st1

/-- Phase 3 (lines 254-266): for each row of the pre-pass store snapshot
with a non-zero, non-lifetime, non-future `vip_until`, fetch the member
(skip when absent) and `removeVipIfHas`; no store writes. -/
def expiryPhase (guild : List Member) (rFail : String → Bool) (now : Nat) :
    Db → Nat → St → Nat × St
  | [], n, st => (n, st)
  | (userId, r) :: rest, n, st =>
    let vipUntil := r.vip_until
    if vipUntil = 0 then expiryPhase guild rFail now rest n st
    else if vipUntil ≥ LIFETIME_UNTIL then expiryPhase guild rFail now rest n st
    else if vipUntil > now then expiryPhase guild rFail now rest n st
    else
      match fetchMemberSafe guild userId with
      | none => expiryPhase guild rFail now rest n st
      | some m => expiryPhase guild rFail now rest (n + 1) (removeVipIfHas rFail m st)

/-- Ids at lifetime in the store snapshot (`lifetimeInDb`, lines 222-224). -/
def lifetimeKeys (db : Db) : List String :=
  (db.filter (fun p => p.2.vip_until ≥ LIFETIME_UNTIL)).map (fun p => p.1)

/-- Body of `syncFromSheetOptimised` (the `try` block, lines 211-269):
read the eligibility map and a store snapshot (`st0.db`), then run the
three phases over that snapshot; a thrown error carries the state reached
so far. -/
def syncBody (env : Env) (st0 : St) : (Except String SyncResult) × St :=
  match getEligibilityMap env.rows with
  | .error e => (.error e, st0)
  | .ok eligibility =>
    match grantPhase env.guild env.grantFails env.now eligibility 0 st0 with
    | (.error e, st1) => (.error e, st1)
    | (.ok lifetimeEnsured, st1) =>
      match downgradePhase env.guild env.grantFails env.removeFails env.now
          eligibility (lifetimeKeys st0.db) 0 st1 with
      | (.error e, st2) => (.error e, st2)
      | (.ok lifetimeDowngraded, st2) =>
        match expiryPhase env.guild env.removeFails env.now st0.db 0 st2 with
        | (expiredRemoved, st3) =>
          (.ok (.done ⟨lifetimeEnsured, lifetimeDowngraded, expiredRemoved,
            eligibility.length⟩), st3)

/-- `syncFromSheetOptimised` (lines 207-273): the single-flight-guarded
three-phase pass.  Returns `{skipped:true}` immediately when a pass is
already running; otherwise sets the flag, runs the body, and clears the
flag (the `finally`) whether the body returns or throws. -/
def syncFromSheetOptimised (env : Env) (st : St) : (Except String SyncResult) × St :=
  if st.running then (.ok .skipped, st)
  else
    ((syncBody env { st with running := true }).1,
      { (syncBody env { st with running := true }).2 with running := false })

/-- User-facing status (lines 319-340). -/
inductive VipStatus where
  | noVip
  | lifetime
  | activeUntil (t : Nat)
  | expired
deriving DecidableEq, Repr

/-- The `/status` handler (lines 319-340): a pure read of the store. -/
def statusQuery (db : Db) (now : Nat) (id : String) : VipStatus :=
  match dbGet db id with
  | none => .noVip
  | some row =>
    if row.vip_until = 0 then .noVip
    else if row.vip_until ≥ LIFETIME_UNTIL then .lifetime
    else if row.vip_until > now then .activeUntil row.vip_until
    else .expired

/-- Loop body of the hourly cleanup cron (lines 372-382). -/
def hourlyCleanupLoop (guild : List Member) (rFail : String → Bool) (now : Nat) :
    Db → St → St
  | [], st => st
  | (userId, r) :: rest, st =>
    let vipUntil := r.vip_until
    if vipUntil = 0 then hourlyCleanupLoop guild rFail now rest st
    else if vipUntil ≥ LIFETIME_UNTIL then hourlyCleanupLoop guild rFail now rest st
    else if vipUntil > now then hourlyCleanupLoop guild rFail now rest st
    else
      match fetchMemberSafe guild userId with
      | none => hourlyCleanupLoop guild rFail now rest st
      | some m => hourlyCleanupLoop guild rFail now rest (removeVipIfHas rFail m st)

/-- The hourly cleanup cron (lines 368-386): reads the store and removes
the role from members whose `vip_until` is non-zero, below lifetime and
not in the future; it never consults the single-flight flag. -/
def hourlyCleanup (guild : List Member) (rFail : String → Bool) (now : Nat) (st : St) : St :=
  hourlyCleanupLoop guild rFail now st.db st

/-! ## Derived helpers used only to state lemmas -/

/-- The record `ensureTrialRecordFor` yields, as a pure function of the
stored row, the member's `joinedTimestamp` and the clock. -/
def ensureRowPure (row? : Option Row) (joined now : Nat) : Row :=
  let joinedTs := if joined ≠ 0 then joined else now
  let fallbackTrialUntil := joinedTs + ONE_MONTH
  match row? with
  | none => ⟨fallbackTrialUntil, fallbackTrialUntil⟩
  | some row =>
    if row.trial_until = 0 then
      ⟨row.vip_until,
        if row.vip_until ≠ 0 ∧ row.vip_until > now ∧ row.vip_until < LIFETIME_UNTIL
        then row.vip_until else fallbackTrialUntil⟩
    else row

/-- The `trial_until` that `setVipLifetime` writes. -/
def svlTrial (row? : Option Row) (joined now : Nat) : Nat :=
  let ex := ensureRowPure row? joined now
  if ex.trial_until ≠ 0 then ex.trial_until else now + ONE_MONTH

/-! ## Association-list and role-set lemmas -/

theorem dbGet_dbUpsert_self (db : Db) (id : String) (r : Row) :
    dbGet (dbUpsert db id r) id = some r := by
  induction db with
  | nil => simp [dbUpsert, dbGet]
  | cons p rest ih =>
    obtain ⟨k, v⟩ := p
    by_cases h : k = id
    · simp [dbUpsert, dbGet, h]
    · simp [dbUpsert, dbGet, h, ih]

theorem dbGet_dbUpsert_ne (db : Db) {id id' : String} (r : Row) (h : id' ≠ id) :
    dbGet (dbUpsert db id r) id' = dbGet db id' := by
  induction db with
  | nil => simp [dbUpsert, dbGet, Ne.symm h]
  | cons p rest ih =>
    obtain ⟨k, v⟩ := p
    by_cases hk : k = id
    · subst hk
      simp [dbUpsert, dbGet, Ne.symm h]
    · simp [dbUpsert, dbGet, hk, ih]

theorem dbUpsert_self_eq (db : Db) {id : String} {r : Row} (h : dbGet db id = some r) :
    dbUpsert db id r = db := by
  induction db with
  | nil => simp [dbGet] at h
  | cons p rest ih =>
    obtain ⟨k, v⟩ := p
    by_cases hk : k = id
    · subst hk
      simp [dbGet] at h
      simp [dbUpsert, h]
    · simp [dbGet, hk] at h
      simp [dbUpsert, hk, ih h]

theorem mem_of_dbGet {db : Db} {id : String} {r : Row} (h : dbGet db id = some r) :
    (id, r) ∈ db := by
  induction db with
  | nil => simp [dbGet] at h
  | cons p rest ih =>
    obtain ⟨k, v⟩ := p
    by_cases hk : k = id
    · subst hk
      simp [dbGet] at h
      simp [h]
    · simp [dbGet, hk] at h
      exact List.mem_cons_of_mem _ (ih h)

theorem dbGet_of_mem {db : Db} {id : String} {r : Row}
    (hnd : (db.map Prod.fst).Nodup) (h : (id, r) ∈ db) :
    dbGet db id = some r := by
  induction db with
  | nil => simp at h
  | cons p rest ih =>
    obtain ⟨k, v⟩ := p
    simp only [List.map_cons, List.nodup_cons] at hnd
    rcases List.mem_cons.mp h with h1 | h1
    · have h1' : id = k ∧ r = v := by simpa using h1
      obtain ⟨rfl, rfl⟩ := h1'
      simp [dbGet]
    · have hk : k ≠ id := by
        rintro rfl
        exact hnd.1 (List.mem_map.mpr ⟨(k, r), h1, rfl⟩)
      simp [dbGet, hk, ih hnd.2 h1]

theorem dbGet_none_of_not_mem_keys {db : Db} {id : String}
    (h : id ∉ db.map Prod.fst) : dbGet db id = none := by
  induction db with
  | nil => simp [dbGet]
  | cons p rest ih =>
    obtain ⟨k, v⟩ := p
    simp only [List.map_cons, List.mem_cons] at h
    push_neg at h
    simp [dbGet, Ne.symm h.1, ih h.2]

theorem keys_dbUpsert_nodup {db : Db} (id : String) (r : Row)
    (hnd : (db.map Prod.fst).Nodup) : ((dbUpsert db id r).map Prod.fst).Nodup := by
  induction db with
  | nil => simp [dbUpsert]
  | cons p rest ih =>
    obtain ⟨k, v⟩ := p
    simp only [List.map_cons, List.nodup_cons] at hnd
    by_cases hk : k = id
    · subst hk
      simpa [dbUpsert] using hnd
    · have hkeys : ∀ x, x ∈ (dbUpsert rest id r).map Prod.fst →
          x ∈ rest.map Prod.fst ∨ x = id := by
        intro x hx
        clear ih hnd
        induction rest with
        | nil => simpa [dbUpsert] using hx
        | cons q rest2 ih2 =>
          obtain ⟨k2, v2⟩ := q
          by_cases hk2 : k2 = id
          · subst hk2
            simp [dbUpsert] at hx ⊢
            tauto
          · simp only [dbUpsert, hk2, if_false, List.map_cons, List.mem_cons] at hx ⊢
            rcases hx with hx | hx
            · exact Or.inl (Or.inl hx)
            · rcases ih2 hx with hy | hy
              · exact Or.inl (Or.inr hy)
              · exact Or.inr hy
      simp only [dbUpsert, hk, if_false, List.map_cons, List.nodup_cons]
      refine ⟨fun hc => ?_, ih hnd.2⟩
      rcases hkeys k hc with hy | hy
      · exact hnd.1 hy
      · exact hk hy

theorem dbGet_unique {db : Db} {id : String} {r r' : Row}
    (hnd : (db.map Prod.fst).Nodup) (h : (id, r) ∈ db) (h' : (id, r') ∈ db) : r = r' := by
  have e1 := dbGet_of_mem hnd h
  have e2 := dbGet_of_mem hnd h'
  rw [e1] at e2
  exact Option.some.inj e2

theorem mem_lifetimeKeys {db : Db} {id : String} :
    id ∈ lifetimeKeys db ↔ ∃ r, (id, r) ∈ db ∧ r.vip_until ≥ LIFETIME_UNTIL := by
  simp only [lifetimeKeys, List.mem_map, List.mem_filter]
  constructor
  · rintro ⟨⟨k, r⟩, ⟨hmem, hge⟩, rfl⟩
    exact ⟨r, hmem, by simpa using hge⟩
  · rintro ⟨r, hmem, hge⟩
    exact ⟨(id, r), ⟨hmem, by simpa using hge⟩, rfl⟩

theorem lifetimeKeys_nodup {db : Db} (hnd : (db.map Prod.fst).Nodup) :
    (lifetimeKeys db).Nodup := by
  have hsub : List.Sublist
      ((db.filter (fun p => p.2.vip_until ≥ LIFETIME_UNTIL)).map Prod.fst)
      (db.map Prod.fst) := List.Sublist.map Prod.fst (List.filter_sublist db)
  exact hnd.sublist hsub

theorem fetchMemberSafe_id {guild : List Member} {id : String} {m : Member}
    (h : fetchMemberSafe guild id = some m) : m.id = id := by
  induction guild with
  | nil => simp [fetchMemberSafe] at h
  | cons g rest ih =>
    by_cases hg : g.id = id
    · simp [fetchMemberSafe, hg] at h
      rw [← h]
      exact hg
    · simp [fetchMemberSafe, hg] at h
      exact ih h

theorem mem_rolesAdd {roles : List String} {id x : String} :
    x ∈ rolesAdd roles id ↔ x = id ∨ x ∈ roles := by
  unfold rolesAdd
  split
  next hc =>
    have h : id ∈ roles := by simpa using hc
    constructor
    · exact Or.inr
    · rintro (rfl | hx)
      · exact h
      · exact hx
  next hc => simp

theorem mem_rolesRemove {roles : List String} {id x : String} :
    x ∈ rolesRemove roles id ↔ x ∈ roles ∧ x ≠ id := by
  simp [rolesRemove]

theorem removeVipIfHas_db (rFail : String → Bool) (m : Member) (st : St) :
    (removeVipIfHas rFail m st).db = st.db := by
  unfold removeVipIfHas
  split <;> [skip; rfl]
  split <;> rfl

theorem removeVipIfHas_running (rFail : String → Bool) (m : Member) (st : St) :
    (removeVipIfHas rFail m st).running = st.running := by
  unfold removeVipIfHas
  split <;> [skip; rfl]
  split <;> rfl

theorem mem_removeVipIfHas_of_ne (rFail : String → Bool) (m : Member) (st : St)
    {x : String} (hx : x ≠ m.id) :
    (x ∈ (removeVipIfHas rFail m st).roles ↔ x ∈ st.roles) := by
  unfold removeVipIfHas
  split
  · split
    · rfl
    · simp [mem_rolesRemove, hx]
  · rfl

theorem not_mem_removeVipIfHas (m : Member) (st : St)
    {rFail : String → Bool} (hr : rFail m.id = false) :
    m.id ∉ (removeVipIfHas rFail m st).roles := by
  unfold removeVipIfHas
  split
  · simp [hr, mem_rolesRemove]
  · intro hc
    simp_all

theorem dbUpsert_dbUpsert (db : Db) (id : String) (r r' : Row) :
    dbUpsert (dbUpsert db id r) id r' = dbUpsert db id r' := by
  induction db with
  | nil => simp [dbUpsert]
  | cons p rest ih =>
    obtain ⟨k, v⟩ := p
    by_cases hk : k = id
    · subst hk
      simp [dbUpsert]
    · simp [dbUpsert, hk, ih]

/-! ## Trial-lifecycle lemmas -/

theorem ensureTrialRecordFor_eq (now : Nat) (m : Member) (st : St) :
    ensureTrialRecordFor now m st =
      (ensureRowPure (dbGet st.db m.id) m.joined now,
        { st with db :=
            dbUpsert st.db m.id (ensureRowPure (dbGet st.db m.id) m.joined now) }) := by
  unfold ensureTrialRecordFor ensureRowPure
  cases hrow : dbGet st.db m.id with
  | none => rfl
  | some row =>
    by_cases h : row.trial_until = 0
    · simp [h]
    · have hds : dbUpsert st.db m.id row = st.db := dbUpsert_self_eq _ hrow
      simp [h, hds]

theorem ensureRowPure_trial_ne_zero (row? : Option Row) (joined now : Nat) :
    (ensureRowPure row? joined now).trial_until ≠ 0 := by
  unfold ensureRowPure
  have hm : ONE_MONTH ≠ 0 := by decide
  cases row? with
  | none => simp; omega
  | some row =>
    by_cases h : row.trial_until = 0
    · simp only [h, if_true]
      split
      next hv => simp; omega
      next hv => simp; omega
    · simp [h]

theorem ensureRowPure_trial_lt {row? : Option Row} {joined now : Nat}
    (hrow : ∀ r, row? = some r → r.trial_until < LIFETIME_UNTIL)
    (hj : joined + ONE_MONTH < LIFETIME_UNTIL)
    (hn : now + ONE_MONTH < LIFETIME_UNTIL) :
    (ensureRowPure row? joined now).trial_until < LIFETIME_UNTIL := by
  unfold ensureRowPure
  have hfb : (if joined ≠ 0 then joined else now) + ONE_MONTH < LIFETIME_UNTIL := by
    split <;> assumption
  cases row? with
  | none => simpa using hfb
  | some row =>
    by_cases h : row.trial_until = 0
    · simp only [h, if_true]
      split
      next hv => simpa using hv.2.2
      next hv => simpa using hfb
    · simpa [h] using hrow row rfl

theorem ensureRowPure_vip_some (row : Row) (joined now : Nat) :
    (ensureRowPure (some row) joined now).vip_until = row.vip_until := by
  unfold ensureRowPure
  by_cases h : row.trial_until = 0 <;> simp [h]

theorem ensureRowPure_of_trial_ne_zero {row : Row} (joined now : Nat)
    (h : row.trial_until ≠ 0) : ensureRowPure (some row) joined now = row := by
  simp [ensureRowPure, h]

theorem svlTrial_eq (row? : Option Row) (joined now : Nat) :
    svlTrial row? joined now = (ensureRowPure row? joined now).trial_until := by
  simp [svlTrial, ensureRowPure_trial_ne_zero]

theorem svlTrial_ne_zero (row? : Option Row) (joined now : Nat) :
    svlTrial row? joined now ≠ 0 := by
  rw [svlTrial_eq]
  exact ensureRowPure_trial_ne_zero row? joined now

theorem svlTrial_lt {row? : Option Row} {joined now : Nat}
    (hrow : ∀ r, row? = some r → r.trial_until < LIFETIME_UNTIL)
    (hj : joined + ONE_MONTH < LIFETIME_UNTIL)
    (hn : now + ONE_MONTH < LIFETIME_UNTIL) :
    svlTrial row? joined now < LIFETIME_UNTIL := by
  rw [svlTrial_eq]
  exact ensureRowPure_trial_lt hrow hj hn

/-! ## setVipLifetime characterization -/

theorem setVipLifetime_eq {gFail : String → Bool} (now : Nat) (m : Member) (st : St)
    (hgm : gFail m.id = false) :
    setVipLifetime gFail now m st =
      (.ok (), { st with
        roles := rolesAdd st.roles m.id
        db := dbUpsert st.db m.id
          ⟨LIFETIME_UNTIL, svlTrial (dbGet st.db m.id) m.joined now⟩ }) := by
  unfold setVipLifetime
  simp only [hgm, Bool.false_eq_true, if_false, ensureTrialRecordFor_eq, svlTrial,
    dbUpsert_dbUpsert]

theorem setVipLifetime_fail {gFail : String → Bool} (now : Nat) (m : Member) (st : St)
    (hgm : gFail m.id = true) :
    setVipLifetime gFail now m st = (.error "roles.add failed", st) := by
  unfold setVipLifetime
  rw [hgm]
  rfl

/-! ## setVipToTrialRemainingOrRemove characterization -/

theorem setVipToTrial_grace {gFail : String → Bool} (rFail : String → Bool)
    (now : Nat) (m : Member) (st : St)
    (hgm : gFail m.id = false)
    (ht : (ensureRowPure (dbGet st.db m.id) m.joined now).trial_until > now) :
    setVipToTrialRemainingOrRemove gFail rFail now m st =
      (.ok (true, (ensureRowPure (dbGet st.db m.id) m.joined now).trial_until),
        { st with
          roles := rolesAdd st.roles m.id
          db := dbUpsert st.db m.id
            ⟨(ensureRowPure (dbGet st.db m.id) m.joined now).trial_until,
              (ensureRowPure (dbGet st.db m.id) m.joined now).trial_until⟩ }) := by
  unfold setVipToTrialRemainingOrRemove
  simp only [ensureTrialRecordFor_eq, ht, if_true, hgm, Bool.false_eq_true, if_false,
    dbUpsert_dbUpsert]

theorem setVipToTrial_grace_fail {gFail : String → Bool} (rFail : String → Bool)
    (now : Nat) (m : Member) (st : St)
    (hgm : gFail m.id = true)
    (ht : (ensureRowPure (dbGet st.db m.id) m.joined now).trial_until > now) :
    setVipToTrialRemainingOrRemove gFail rFail now m st =
      (.error "roles.add failed",
        { st with db := dbUpsert st.db m.id (ensureRowPure (dbGet st.db m.id) m.joined now) }) := by
  unfold setVipToTrialRemainingOrRemove
  simp only [ensureTrialRecordFor_eq, ht, if_true, hgm]

theorem setVipToTrial_expired {gFail : String → Bool} (rFail : String → Bool)
    (now : Nat) (m : Member) (st : St)
    (ht : ¬ (ensureRowPure (dbGet st.db m.id) m.joined now).trial_until > now) :
    setVipToTrialRemainingOrRemove gFail rFail now m st =
      (.ok (false, (ensureRowPure (dbGet st.db m.id) m.joined now).trial_until),
        { st with
          roles :=
            if st.roles.contains m.id then
              if rFail m.id then st.roles else rolesRemove st.roles m.id
            else st.roles
          db := dbUpsert st.db m.id
            ⟨0, (ensureRowPure (dbGet st.db m.id) m.joined now).trial_until⟩ }) := by
  unfold setVipToTrialRemainingOrRemove
  simp only [ensureTrialRecordFor_eq, ht, if_false, dbUpsert_dbUpsert]

/-! ## Eligibility-map lemmas -/

theorem eligGet_of_mem {m : EligMap} {id : String} {b : Bool}
    (hnd : (m.map Prod.fst).Nodup) (h : (id, b) ∈ m) : eligGet m id = some b := by
  induction m with
  | nil => simp at h
  | cons p rest ih =>
    obtain ⟨k, v⟩ := p
    simp only [List.map_cons, List.nodup_cons] at hnd
    rcases List.mem_cons.mp h with h1 | h1
    · have h1' : id = k ∧ b = v := by simpa using h1
      obtain ⟨rfl, rfl⟩ := h1'
      simp [eligGet]
    · have hk : k ≠ id := by
        rintro rfl
        exact hnd.1 (List.mem_map.mpr ⟨(k, b), h1, rfl⟩)
      simp [eligGet, hk, ih hnd.2 h1]

theorem not_mem_of_eligGet_ne {m : EligMap} {id : String} {b : Bool}
    (hnd : (m.map Prod.fst).Nodup) (h : eligGet m id ≠ some b) : (id, b) ∉ m :=
  fun hc => h (eligGet_of_mem hnd hc)

theorem mem_keys_eligSet {m : EligMap} {id x : String} {b : Bool}
    (hx : x ∈ (eligSet m id b).map Prod.fst) : x ∈ m.map Prod.fst ∨ x = id := by
  induction m with
  | nil => simpa [eligSet] using hx
  | cons p rest ih =>
    obtain ⟨k, v⟩ := p
    by_cases hk : k = id
    · subst hk
      simp [eligSet] at hx ⊢
      tauto
    · simp only [eligSet, hk, if_false, List.map_cons, List.mem_cons] at hx ⊢
      rcases hx with hx | hx
      · exact Or.inl (Or.inl hx)
      · rcases ih hx with hy | hy
        · exact Or.inl (Or.inr hy)
        · exact Or.inr hy

theorem eligSet_keys_nodup {m : EligMap} (id : String) (b : Bool)
    (hnd : (m.map Prod.fst).Nodup) : ((eligSet m id b).map Prod.fst).Nodup := by
  induction m with
  | nil => simp [eligSet]
  | cons p rest ih =>
    obtain ⟨k, v⟩ := p
    simp only [List.map_cons, List.nodup_cons] at hnd
    by_cases hk : k = id
    · subst hk
      simpa [eligSet] using hnd
    · simp only [eligSet, hk, if_false, List.map_cons, List.nodup_cons]
      refine ⟨fun hc => ?_, ih hnd.2⟩
      rcases mem_keys_eligSet hc with hy | hy
      · exact hnd.1 hy
      · exact hk hy

theorem getEligibilityMap_nodup {rows : List (List String)} {m : EligMap}
    (h : getEligibilityMap rows = .ok m) : (m.map Prod.fst).Nodup := by
  unfold getEligibilityMap at h
  by_cases hlen : rows.length < 2
  · simp only [hlen, if_true] at h
    cases h
    simp
  · simp only [hlen, if_false] at h
    cases hd : (((rows.headD []).map (fun h => sTrim (sLower h))).findIdx?
        (fun h => h = "discord_id")) with
    | none => rw [hd] at h; cases h
    | some discordIdx =>
      rw [hd] at h
      cases hl : (((rows.headD []).map (fun h => sTrim (sLower h))).findIdx?
          (fun h => h = "lifetime_vip")) with
      | none => rw [hl] at h; cases h
      | some lifetimeIdx =>
        rw [hl] at h
        simp only [Except.ok.injEq] at h
        subst h
        have hgen : ∀ (l : List (List String)) (acc : EligMap),
            (acc.map Prod.fst).Nodup →
            ((l.foldl (fun m row =>
              let id := sTrim (row.getD discordIdx "")
              if id = "" then m
              else
                let val := sUpper (sTrim (row.getD lifetimeIdx ""))
                eligSet m id (val = "YES")) acc).map Prod.fst).Nodup := by
          intro l
          induction l with
          | nil => intro acc hacc; simpa using hacc
          | cons row rest ih =>
            intro acc hacc
            simp only [List.foldl_cons]
            apply ih
            split
            · exact hacc
            · exact eligSet_keys_nodup _ _ hacc
        exact hgen _ [] (by simp)

/-! ## Grant-phase lemmas -/

theorem grantPhase_frame {guild : List Member} {gFail : String → Bool} {now : Nat}
    {l : EligMap} {id : String}
    (h : (id, true) ∉ l ∨ fetchMemberSafe guild id = none) (n : Nat) (st : St) :
    dbGet (grantPhase guild gFail now l n st).2.db id = dbGet st.db id ∧
      (id ∈ (grantPhase guild gFail now l n st).2.roles ↔ id ∈ st.roles) := by
  induction l generalizing n st with
  | nil => simp [grantPhase]
  | cons p rest ih =>
    obtain ⟨k, b⟩ := p
    have hrest : (id, true) ∉ rest ∨ fetchMemberSafe guild id = none := by
      rcases h with h | h
      · exact Or.inl fun hc => h (List.mem_cons_of_mem _ hc)
      · exact Or.inr h
    cases b with
    | false => simpa only [grantPhase] using ih hrest n st
    | true =>
      cases hf : fetchMemberSafe guild k with
      | none => simpa only [grantPhase, hf] using ih hrest n st
      | some m =>
        have hmk : m.id = k := fetchMemberSafe_id hf
        have hkid : k ≠ id := by
          intro hc
          subst hc
          rcases h with h | h
          · exact h (List.mem_cons_self _ _)
          · rw [h] at hf
            cases hf
        cases hgf : gFail m.id with
        | true =>
          simp only [grantPhase, hf, setVipLifetime_fail now m st hgf]
          exact ⟨trivial, trivial⟩
        | false =>
          have hidm : id ≠ m.id := by rw [hmk]; exact Ne.symm hkid
          simp only [grantPhase, hf, setVipLifetime_eq now m st hgf]
          obtain ⟨ihd, ihr⟩ := ih hrest (n + 1)
            { st with
              roles := rolesAdd st.roles m.id
              db := dbUpsert st.db m.id
                ⟨LIFETIME_UNTIL, svlTrial (dbGet st.db m.id) m.joined now⟩ }
          refine ⟨?_, ?_⟩
          · rw [ihd]
            exact dbGet_dbUpsert_ne _ _ hidm
          · rw [ihr]
            simp [mem_rolesAdd, hidm]

theorem grantPhase_ok {guild : List Member} {gFail : String → Bool} {now : Nat}
    (hg : ∀ x, gFail x = false) (l : EligMap) (n : Nat) (st : St) :
    ∃ c st', grantPhase guild gFail now l n st = (.ok c, st') := by
  induction l generalizing n st with
  | nil => exact ⟨n, st, rfl⟩
  | cons p rest ih =>
    obtain ⟨k, b⟩ := p
    cases b with
    | false => simpa only [grantPhase] using ih n st
    | true =>
      cases hf : fetchMemberSafe guild k with
      | none => simpa only [grantPhase, hf] using ih n st
      | some m =>
        simpa only [grantPhase, hf, setVipLifetime_eq now m st (hg m.id)]
          using ih (n + 1) _

theorem grantPhase_nodup {guild : List Member} {gFail : String → Bool} {now : Nat}
    (l : EligMap) (n : Nat) (st : St) (hnd : (st.db.map Prod.fst).Nodup) :
    ((grantPhase guild gFail now l n st).2.db.map Prod.fst).Nodup := by
  induction l generalizing n st with
  | nil => simpa [grantPhase] using hnd
  | cons p rest ih =>
    obtain ⟨k, b⟩ := p
    cases b with
    | false => simpa only [grantPhase] using ih n st hnd
    | true =>
      cases hf : fetchMemberSafe guild k with
      | none => simpa only [grantPhase, hf] using ih n st hnd
      | some m =>
        cases hgf : gFail m.id with
        | true =>
          simpa only [grantPhase, hf, setVipLifetime_fail now m st hgf] using hnd
        | false =>
          simp only [grantPhase, hf, setVipLifetime_eq now m st hgf]
          exact ih (n + 1) _ (keys_dbUpsert_nodup _ _ hnd)

theorem grantPhase_effect {guild : List Member} {gFail : String → Bool} {now : Nat}
    {l : EligMap} {id : String} {m : Member}
    (hg : ∀ x, gFail x = false)
    (hnd : (l.map Prod.fst).Nodup)
    (hmem : (id, true) ∈ l)
    (hm : fetchMemberSafe guild id = some m) (n : Nat) (st : St) :
    dbGet (grantPhase guild gFail now l n st).2.db id =
      some ⟨LIFETIME_UNTIL, svlTrial (dbGet st.db id) m.joined now⟩ ∧
      id ∈ (grantPhase guild gFail now l n st).2.roles := by
  induction l generalizing n st with
  | nil => simp at hmem
  | cons p rest ih =>
    obtain ⟨k, b⟩ := p
    simp only [List.map_cons, List.nodup_cons] at hnd
    by_cases hk : k = id
    · subst hk
      have hb : b = true := by
        rcases List.mem_cons.mp hmem with h1 | h1
        · have h1' : k = k ∧ true = b := by simpa using h1
          exact h1'.2.symm
        · exact absurd (List.mem_map.mpr ⟨(k, true), h1, rfl⟩) hnd.1
      subst hb
      have hnotin : (k, true) ∉ rest :=
        fun hc => hnd.1 (List.mem_map.mpr ⟨(k, true), hc, rfl⟩)
      have hmk : m.id = k := fetchMemberSafe_id hm
      have hstep := @setVipLifetime_eq gFail now m st (hg m.id)
      simp only [grantPhase, hm, hstep]
      obtain ⟨hfd, hfr⟩ := grantPhase_frame (Or.inl hnotin) (n + 1)
        { st with
          roles := rolesAdd st.roles m.id
          db := dbUpsert st.db m.id
            ⟨LIFETIME_UNTIL, svlTrial (dbGet st.db m.id) m.joined now⟩ }
      refine ⟨?_, ?_⟩
      · rw [hfd]
        simp only [hmk]
        exact dbGet_dbUpsert_self _ _ _
      · rw [hfr]
        simp [mem_rolesAdd, hmk]
    · have hmem' : (id, true) ∈ rest := by
        rcases List.mem_cons.mp hmem with h1 | h1
        · exfalso
          apply hk
          have h1' : id = k ∧ true = b := by simpa using h1
          exact h1'.1.symm
        · exact h1
      cases b with
      | false =>
        simpa only [grantPhase] using ih hnd.2 hmem' n st
      | true =>
        cases hf : fetchMemberSafe guild k with
        | none => simpa only [grantPhase, hf] using ih hnd.2 hmem' n st
        | some m2 =>
          have hm2k : m2.id = k := fetchMemberSafe_id hf
          have hstep := @setVipLifetime_eq gFail now m2 st (hg m2.id)
          simp only [grantPhase, hf, hstep]
          have hidm2 : id ≠ m2.id := by rw [hm2k]; exact Ne.symm hk
          obtain ⟨ihd, ihr⟩ := ih hnd.2 hmem' (n + 1)
            { st with
              roles := rolesAdd st.roles m2.id
              db := dbUpsert st.db m2.id
                ⟨LIFETIME_UNTIL, svlTrial (dbGet st.db m2.id) m2.joined now⟩ }
          refine ⟨?_, ihr⟩
          rw [ihd]
          simp only [dbGet_dbUpsert_ne _ _ hidm2]

theorem grantPhase_trial {guild : List Member} {gFail : String → Bool} {now : Nat}
    (l : EligMap) (n : Nat) (st : St) {id : String} {r : Row}
    (hget : dbGet st.db id = some r) (htr : r.trial_until ≠ 0) :
    ∃ r', dbGet (grantPhase guild gFail now l n st).2.db id = some r' ∧
      r'.trial_until = r.trial_until := by
  induction l generalizing n st r with
  | nil => exact ⟨r, by simpa [grantPhase] using hget, rfl⟩
  | cons p rest ih =>
    obtain ⟨k, b⟩ := p
    cases b with
    | false => simpa only [grantPhase] using ih n st hget htr
    | true =>
      cases hf : fetchMemberSafe guild k with
      | none => simpa only [grantPhase, hf] using ih n st hget htr
      | some m =>
        cases hgf : gFail m.id with
        | true =>
          simp only [grantPhase, hf, setVipLifetime_fail now m st hgf]
          exact ⟨r, hget, rfl⟩
        | false =>
          have hstep := @setVipLifetime_eq gFail now m st hgf
          simp only [grantPhase, hf, hstep]
          by_cases hid : id = m.id
          · have hget2 : dbGet st.db m.id = some r := by rw [← hid]; exact hget
            have hsvl : svlTrial (dbGet st.db m.id) m.joined now = r.trial_until := by
              rw [hget2, svlTrial_eq, ensureRowPure_of_trial_ne_zero _ _ htr]
            have hget' : dbGet (dbUpsert st.db m.id
                ⟨LIFETIME_UNTIL, svlTrial (dbGet st.db m.id) m.joined now⟩) id =
                some ⟨LIFETIME_UNTIL, svlTrial (dbGet st.db m.id) m.joined now⟩ := by
              rw [hid]
              exact dbGet_dbUpsert_self _ _ _
            obtain ⟨r', hr1, hr2⟩ := ih (n + 1)
              { st with
                roles := rolesAdd st.roles m.id
                db := dbUpsert st.db m.id
                  ⟨LIFETIME_UNTIL, svlTrial (dbGet st.db m.id) m.joined now⟩ }
              hget' (by simp only [hsvl]; exact htr)
            refine ⟨r', hr1, ?_⟩
            rw [hr2]
            exact hsvl
          · have hget' : dbGet (dbUpsert st.db m.id
                ⟨LIFETIME_UNTIL, svlTrial (dbGet st.db m.id) m.joined now⟩) id = some r := by
              rw [dbGet_dbUpsert_ne _ _ hid]
              exact hget
            exact ih (n + 1)
              { st with
                roles := rolesAdd st.roles m.id
                db := dbUpsert st.db m.id
                  ⟨LIFETIME_UNTIL, svlTrial (dbGet st.db m.id) m.joined now⟩ }
              hget' htr

/-! ## Downgrade-phase lemmas -/

theorem roles_after_remove_mem {roles : List String} {rFail : String → Bool}
    {mid x : String} (hx : x ≠ mid) :
    (x ∈ (if roles.contains mid then
        if rFail mid then roles else rolesRemove roles mid
      else roles)) ↔ x ∈ roles := by
  split
  · split
    · exact Iff.rfl
    · simp [mem_rolesRemove, hx]
  · exact Iff.rfl

theorem downgradePhase_frame {guild : List Member} {gFail rFail : String → Bool}
    {now : Nat} {elig : EligMap} {l : List String} {id : String}
    (h : eligGet elig id = some true ∨ id ∉ l) (n : Nat) (st : St) :
    dbGet (downgradePhase guild gFail rFail now elig l n st).2.db id = dbGet st.db id ∧
      (id ∈ (downgradePhase guild gFail rFail now elig l n st).2.roles ↔ id ∈ st.roles) := by
  induction l generalizing n st with
  | nil => simp [downgradePhase]
  | cons k rest ih =>
    have hrest : eligGet elig id = some true ∨ id ∉ rest := by
      rcases h with h | h
      · exact Or.inl h
      · exact Or.inr fun hc => h (List.mem_cons_of_mem _ hc)
    cases hv : eligGet elig k with
    | some b =>
      cases b with
      | true => simpa only [downgradePhase, hv] using ih hrest n st
      | false =>
        cases hf : fetchMemberSafe guild k with
        | none => simpa only [downgradePhase, hv, hf] using ih hrest n st
        | some m =>
          have hmk : m.id = k := fetchMemberSafe_id hf
          have hkid : k ≠ id := by
            intro hc
            subst hc
            rcases h with h | h
            · rw [h] at hv
              cases hv
            · exact h (List.mem_cons_self _ _)
          have hidm : id ≠ m.id := by rw [hmk]; exact Ne.symm hkid
          by_cases ht : (ensureRowPure (dbGet st.db m.id) m.joined now).trial_until > now
          · cases hgf : gFail m.id with
            | true =>
              simp only [downgradePhase, hv, hf,
                setVipToTrial_grace_fail rFail now m st hgf ht]
              exact ⟨dbGet_dbUpsert_ne _ _ hidm, trivial⟩
            | false =>
              simp only [downgradePhase, hv, hf,
                setVipToTrial_grace rFail now m st hgf ht]
              obtain ⟨ihd, ihr⟩ := ih hrest (n + 1)
                { st with
                  roles := rolesAdd st.roles m.id
                  db := dbUpsert st.db m.id
                    ⟨(ensureRowPure (dbGet st.db m.id) m.joined now).trial_until,
                      (ensureRowPure (dbGet st.db m.id) m.joined now).trial_until⟩ }
              refine ⟨?_, ?_⟩
              · rw [ihd]
                exact dbGet_dbUpsert_ne _ _ hidm
              · rw [ihr]
                simp [mem_rolesAdd, hidm]
          · simp only [downgradePhase, hv, hf, setVipToTrial_expired rFail now m st ht]
            obtain ⟨ihd, ihr⟩ := ih hrest (n + 1)
              { st with
                roles :=
                  if st.roles.contains m.id then
                    if rFail m.id then st.roles else rolesRemove st.roles m.id
                  else st.roles
                db := dbUpsert st.db m.id
                  ⟨0, (ensureRowPure (dbGet st.db m.id) m.joined now).trial_until⟩ }
            refine ⟨?_, ?_⟩
            · rw [ihd]
              exact dbGet_dbUpsert_ne _ _ hidm
            · rw [ihr]
              exact roles_after_remove_mem hidm
    | none =>
      cases hf : fetchMemberSafe guild k with
      | none => simpa only [downgradePhase, hv, hf] using ih hrest n st
      | some m =>
        have hmk : m.id = k := fetchMemberSafe_id hf
        have hkid : k ≠ id := by
          intro hc
          subst hc
          rcases h with h | h
          · rw [h] at hv
            cases hv
          · exact h (List.mem_cons_self _ _)
        have hidm : id ≠ m.id := by rw [hmk]; exact Ne.symm hkid
        by_cases ht : (ensureRowPure (dbGet st.db m.id) m.joined now).trial_until > now
        · cases hgf : gFail m.id with
          | true =>
            simp only [downgradePhase, hv, hf,
              setVipToTrial_grace_fail rFail now m st hgf ht]
            exact ⟨dbGet_dbUpsert_ne _ _ hidm, trivial⟩
          | false =>
            simp only [downgradePhase, hv, hf,
              setVipToTrial_grace rFail now m st hgf ht]
            obtain ⟨ihd, ihr⟩ := ih hrest (n + 1)
              { st with
                roles := rolesAdd st.roles m.id
                db := dbUpsert st.db m.id
                  ⟨(ensureRowPure (dbGet st.db m.id) m.joined now).trial_until,
                    (ensureRowPure (dbGet st.db m.id) m.joined now).trial_until⟩ }
            refine ⟨?_, ?_⟩
            · rw [ihd]
              exact dbGet_dbUpsert_ne _ _ hidm
            · rw [ihr]
              simp [mem_rolesAdd, hidm]
        · simp only [downgradePhase, hv, hf, setVipToTrial_expired rFail now m st ht]
          obtain ⟨ihd, ihr⟩ := ih hrest (n + 1)
            { st with
              roles :=
                if st.roles.contains m.id then
                  if rFail m.id then st.roles else rolesRemove st.roles m.id
                else st.roles
              db := dbUpsert st.db m.id
                ⟨0, (ensureRowPure (dbGet st.db m.id) m.joined now).trial_until⟩ }
          refine ⟨?_, ?_⟩
          · rw [ihd]
            exact dbGet_dbUpsert_ne _ _ hidm
          · rw [ihr]
            exact roles_after_remove_mem hidm

theorem downgradePhase_cons_skip {guild : List Member} {gFail rFail : String → Bool}
    {now : Nat} {elig : EligMap} {k : String} (rest : List String) (n : Nat) (st : St)
    (hv : eligGet elig k = some true) :
    downgradePhase guild gFail rFail now elig (k :: rest) n st =
      downgradePhase guild gFail rFail now elig rest n st := by
  simp only [downgradePhase, hv]

theorem downgradePhase_cons_none {guild : List Member} {gFail rFail : String → Bool}
    {now : Nat} {elig : EligMap} {k : String} (rest : List String) (n : Nat) (st : St)
    (hv : eligGet elig k ≠ some true) (hf : fetchMemberSafe guild k = none) :
    downgradePhase guild gFail rFail now elig (k :: rest) n st =
      downgradePhase guild gFail rFail now elig rest n st := by
  cases hvv : eligGet elig k with
  | none => simp only [downgradePhase, hvv, hf]
  | some b =>
    cases b with
    | false => simp only [downgradePhase, hvv, hf]
    | true => exact absurd hvv hv

theorem downgradePhase_cons_some {guild : List Member} {gFail rFail : String → Bool}
    {now : Nat} {elig : EligMap} {k : String} {m : Member}
    (rest : List String) (n : Nat) (st : St)
    (hv : eligGet elig k ≠ some true) (hf : fetchMemberSafe guild k = some m) :
    downgradePhase guild gFail rFail now elig (k :: rest) n st =
      match setVipToTrialRemainingOrRemove gFail rFail now m st with
      | (.error e, st1) => (.error e, st1)
      | (.ok _, st1) => downgradePhase guild gFail rFail now elig rest (n + 1) st1 := by
  cases hvv : eligGet elig k with
  | none => simp only [downgradePhase, hvv, hf]
  | some b =>
    cases b with
    | false => simp only [downgradePhase, hvv, hf]
    | true => exact absurd hvv hv

theorem downgradePhase_ok {guild : List Member} {gFail rFail : String → Bool}
    {now : Nat} {elig : EligMap}
    (hg : ∀ x, gFail x = false) (l : List String) (n : Nat) (st : St) :
    ∃ c st', downgradePhase guild gFail rFail now elig l n st = (.ok c, st') := by
  induction l generalizing n st with
  | nil => exact ⟨n, st, rfl⟩
  | cons k rest ih =>
    by_cases hv : eligGet elig k = some true
    · rw [downgradePhase_cons_skip rest n st hv]
      exact ih n st
    · cases hf : fetchMemberSafe guild k with
      | none =>
        rw [downgradePhase_cons_none rest n st hv hf]
        exact ih n st
      | some m =>
        by_cases ht : (ensureRowPure (dbGet st.db m.id) m.joined now).trial_until > now
        · simp only [downgradePhase_cons_some rest n st hv hf,
            setVipToTrial_grace rFail now m st (hg m.id) ht]
          exact ih (n + 1) _
        · simp only [downgradePhase_cons_some rest n st hv hf,
            setVipToTrial_expired rFail now m st ht]
          exact ih (n + 1) _

theorem downgradePhase_noop {guild : List Member} {gFail rFail : String → Bool}
    {now : Nat} {elig : EligMap} {l : List String}
    (h : ∀ id ∈ l, eligGet elig id = some true ∨ fetchMemberSafe guild id = none)
    (n : Nat) (st : St) :
    downgradePhase guild gFail rFail now elig l n st = (.ok n, st) := by
  induction l generalizing n st with
  | nil => rfl
  | cons k rest ih =>
    have hrest : ∀ id ∈ rest, eligGet elig id = some true ∨ fetchMemberSafe guild id = none :=
      fun id hid => h id (List.mem_cons_of_mem _ hid)
    by_cases hv : eligGet elig k = some true
    · rw [downgradePhase_cons_skip rest n st hv]
      exact ih hrest n st
    · have hk : fetchMemberSafe guild k = none := by
        rcases h k (List.mem_cons_self _ _) with hk | hk
        · exact absurd hk hv
        · exact hk
      rw [downgradePhase_cons_none rest n st hv hk]
      exact ih hrest n st

theorem downgradePhase_nodup {guild : List Member} {gFail rFail : String → Bool}
    {now : Nat} {elig : EligMap}
    (l : List String) (n : Nat) (st : St) (hnd : (st.db.map Prod.fst).Nodup) :
    ((downgradePhase guild gFail rFail now elig l n st).2.db.map Prod.fst).Nodup := by
  induction l generalizing n st with
  | nil => simpa [downgradePhase] using hnd
  | cons k rest ih =>
    by_cases hv : eligGet elig k = some true
    · rw [downgradePhase_cons_skip rest n st hv]
      exact ih n st hnd
    · cases hf : fetchMemberSafe guild k with
      | none =>
        rw [downgradePhase_cons_none rest n st hv hf]
        exact ih n st hnd
      | some m =>
        by_cases ht : (ensureRowPure (dbGet st.db m.id) m.joined now).trial_until > now
        · cases hgf : gFail m.id with
          | true =>
            simp only [downgradePhase_cons_some rest n st hv hf,
              setVipToTrial_grace_fail rFail now m st hgf ht]
            exact keys_dbUpsert_nodup _ _ hnd
          | false =>
            simp only [downgradePhase_cons_some rest n st hv hf,
              setVipToTrial_grace rFail now m st hgf ht]
            exact ih (n + 1) _ (keys_dbUpsert_nodup _ _ hnd)
        · simp only [downgradePhase_cons_some rest n st hv hf,
            setVipToTrial_expired rFail now m st ht]
          exact ih (n + 1) _ (keys_dbUpsert_nodup _ _ hnd)

theorem downgradePhase_grace {guild : List Member} {gFail rFail : String → Bool}
    {now : Nat} {elig : EligMap} {l : List String} {id : String} {m : Member}
    (hg : ∀ x, gFail x = false)
    (hnd : l.Nodup)
    (hmem : id ∈ l)
    (helig : eligGet elig id ≠ some true)
    (hm : fetchMemberSafe guild id = some m) (n : Nat) (st : St)
    (ht : (ensureRowPure (dbGet st.db id) m.joined now).trial_until > now) :
    dbGet (downgradePhase guild gFail rFail now elig l n st).2.db id =
      some ⟨(ensureRowPure (dbGet st.db id) m.joined now).trial_until,
        (ensureRowPure (dbGet st.db id) m.joined now).trial_until⟩ ∧
      id ∈ (downgradePhase guild gFail rFail now elig l n st).2.roles := by
  induction l generalizing n st with
  | nil => simp at hmem
  | cons k rest ih =>
    simp only [List.nodup_cons] at hnd
    by_cases hk : k = id
    · subst hk
      have hmk : m.id = k := fetchMemberSafe_id hm
      have ht' : (ensureRowPure (dbGet st.db m.id) m.joined now).trial_until > now := by
        rw [hmk]
        exact ht
      simp only [downgradePhase_cons_some rest n st helig hm,
        setVipToTrial_grace rFail now m st (hg m.id) ht']
      obtain ⟨hfd, hfr⟩ := @downgradePhase_frame guild gFail rFail now elig rest k
        (Or.inr hnd.1) (n + 1)
        { st with
          roles := rolesAdd st.roles m.id
          db := dbUpsert st.db m.id
            ⟨(ensureRowPure (dbGet st.db m.id) m.joined now).trial_until,
              (ensureRowPure (dbGet st.db m.id) m.joined now).trial_until⟩ }
      refine ⟨?_, ?_⟩
      · rw [hfd]
        simp only [hmk]
        exact dbGet_dbUpsert_self _ _ _
      · rw [hfr]
        simp [mem_rolesAdd, hmk]
    · have hmem' : id ∈ rest := by
        rcases List.mem_cons.mp hmem with h1 | h1
        · exact absurd h1.symm hk
        · exact h1
      by_cases hv : eligGet elig k = some true
      · rw [downgradePhase_cons_skip rest n st hv]
        exact ih hnd.2 hmem' n st ht
      · cases hf : fetchMemberSafe guild k with
        | none =>
          rw [downgradePhase_cons_none rest n st hv hf]
          exact ih hnd.2 hmem' n st ht
        | some m2 =>
          have hm2k : m2.id = k := fetchMemberSafe_id hf
          have hidm2 : id ≠ m2.id := by rw [hm2k]; exact Ne.symm hk
          by_cases ht2 : (ensureRowPure (dbGet st.db m2.id) m2.joined now).trial_until > now
          · simp only [downgradePhase_cons_some rest n st hv hf,
              setVipToTrial_grace rFail now m2 st (hg m2.id) ht2]
            have hdb : dbGet (dbUpsert st.db m2.id
                ⟨(ensureRowPure (dbGet st.db m2.id) m2.joined now).trial_until,
                  (ensureRowPure (dbGet st.db m2.id) m2.joined now).trial_until⟩) id =
                dbGet st.db id := dbGet_dbUpsert_ne _ _ hidm2
            have ih2 := ih hnd.2 hmem' (n + 1)
              { st with
                roles := rolesAdd st.roles m2.id
                db := dbUpsert st.db m2.id
                  ⟨(ensureRowPure (dbGet st.db m2.id) m2.joined now).trial_until,
                    (ensureRowPure (dbGet st.db m2.id) m2.joined now).trial_until⟩ }
              (by simpa only [hdb] using ht)
            simpa only [hdb] using ih2
          · simp only [downgradePhase_cons_some rest n st hv hf,
              setVipToTrial_expired rFail now m2 st ht2]
            have hdb : dbGet (dbUpsert st.db m2.id
                ⟨0, (ensureRowPure (dbGet st.db m2.id) m2.joined now).trial_until⟩) id =
                dbGet st.db id := dbGet_dbUpsert_ne _ _ hidm2
            have ih2 := ih hnd.2 hmem' (n + 1)
              { st with
                roles :=
                  if st.roles.contains m2.id then
                    if rFail m2.id then st.roles else rolesRemove st.roles m2.id
                  else st.roles
                db := dbUpsert st.db m2.id
                  ⟨0, (ensureRowPure (dbGet st.db m2.id) m2.joined now).trial_until⟩ }
              (by simpa only [hdb] using ht)
            simpa only [hdb] using ih2

theorem downgradePhase_expired {guild : List Member} {gFail rFail : String → Bool}
    {now : Nat} {elig : EligMap} {l : List String} {id : String} {m : Member}
    (hg : ∀ x, gFail x = false)
    (hnd : l.Nodup)
    (hmem : id ∈ l)
    (helig : eligGet elig id ≠ some true)
    (hm : fetchMemberSafe guild id = some m) (n : Nat) (st : St)
    (ht : ¬ (ensureRowPure (dbGet st.db id) m.joined now).trial_until > now) :
    dbGet (downgradePhase guild gFail rFail now elig l n st).2.db id =
      some ⟨0, (ensureRowPure (dbGet st.db id) m.joined now).trial_until⟩ := by
  induction l generalizing n st with
  | nil => simp at hmem
  | cons k rest ih =>
    simp only [List.nodup_cons] at hnd
    by_cases hk : k = id
    · subst hk
      have hmk : m.id = k := fetchMemberSafe_id hm
      have ht' : ¬ (ensureRowPure (dbGet st.db m.id) m.joined now).trial_until > now := by
        rw [hmk]
        exact ht
      simp only [downgradePhase_cons_some rest n st helig hm,
        setVipToTrial_expired rFail now m st ht']
      obtain ⟨hfd, hfr⟩ := @downgradePhase_frame guild gFail rFail now elig rest k
        (Or.inr hnd.1) (n + 1)
        { st with
          roles :=
            if st.roles.contains m.id then
              if rFail m.id then st.roles else rolesRemove st.roles m.id
            else st.roles
          db := dbUpsert st.db m.id
            ⟨0, (ensureRowPure (dbGet st.db m.id) m.joined now).trial_until⟩ }
      rw [hfd]
      simp only [hmk]
      exact dbGet_dbUpsert_self _ _ _
    · have hmem' : id ∈ rest := by
        rcases List.mem_cons.mp hmem with h1 | h1
        · exact absurd h1.symm hk
        · exact h1
      by_cases hv : eligGet elig k = some true
      · rw [downgradePhase_cons_skip rest n st hv]
        exact ih hnd.2 hmem' n st ht
      · cases hf : fetchMemberSafe guild k with
        | none =>
          rw [downgradePhase_cons_none rest n st hv hf]
          exact ih hnd.2 hmem' n st ht
        | some m2 =>
          have hm2k : m2.id = k := fetchMemberSafe_id hf
          have hidm2 : id ≠ m2.id := by rw [hm2k]; exact Ne.symm hk
          by_cases ht2 : (ensureRowPure (dbGet st.db m2.id) m2.joined now).trial_until > now
          · simp only [downgradePhase_cons_some rest n st hv hf,
              setVipToTrial_grace rFail now m2 st (hg m2.id) ht2]
            have hdb : dbGet (dbUpsert st.db m2.id
                ⟨(ensureRowPure (dbGet st.db m2.id) m2.joined now).trial_until,
                  (ensureRowPure (dbGet st.db m2.id) m2.joined now).trial_until⟩) id =
                dbGet st.db id := dbGet_dbUpsert_ne _ _ hidm2
            have ih2 := ih hnd.2 hmem' (n + 1)
              { st with
                roles := rolesAdd st.roles m2.id
                db := dbUpsert st.db m2.id
                  ⟨(ensureRowPure (dbGet st.db m2.id) m2.joined now).trial_until,
                    (ensureRowPure (dbGet st.db m2.id) m2.joined now).trial_until⟩ }
              (by simpa only [hdb] using ht)
            simpa only [hdb] using ih2
          · simp only [downgradePhase_cons_some rest n st hv hf,
              setVipToTrial_expired rFail now m2 st ht2]
            have hdb : dbGet (dbUpsert st.db m2.id
                ⟨0, (ensureRowPure (dbGet st.db m2.id) m2.joined now).trial_until⟩) id =
                dbGet st.db id := dbGet_dbUpsert_ne _ _ hidm2
            have ih2 := ih hnd.2 hmem' (n + 1)
              { st with
                roles :=
                  if st.roles.contains m2.id then
                    if rFail m2.id then st.roles else rolesRemove st.roles m2.id
                  else st.roles
                db := dbUpsert st.db m2.id
                  ⟨0, (ensureRowPure (dbGet st.db m2.id) m2.joined now).trial_until⟩ }
              (by simpa only [hdb] using ht)
            simpa only [hdb] using ih2

theorem downgradePhase_trial {guild : List Member} {gFail rFail : String → Bool}
    {now : Nat} {elig : EligMap}
    (l : List String) (n : Nat) (st : St) {id : String} {r : Row}
    (hget : dbGet st.db id = some r) (htr : r.trial_until ≠ 0) :
    ∃ r', dbGet (downgradePhase guild gFail rFail now elig l n st).2.db id = some r' ∧
      r'.trial_until = r.trial_until := by
  induction l generalizing n st r with
  | nil => exact ⟨r, by simpa [downgradePhase] using hget, rfl⟩
  | cons k rest ih =>
    by_cases hv : eligGet elig k = some true
    · rw [downgradePhase_cons_skip rest n st hv]
      exact ih n st hget htr
    · cases hf : fetchMemberSafe guild k with
      | none =>
        rw [downgradePhase_cons_none rest n st hv hf]
        exact ih n st hget htr
      | some m =>
        by_cases hid : id = m.id
        · have hget2 : dbGet st.db m.id = some r := by rw [← hid]; exact hget
          have hex : ensureRowPure (dbGet st.db m.id) m.joined now = r := by
            rw [hget2]
            exact ensureRowPure_of_trial_ne_zero _ _ htr
          by_cases ht : (ensureRowPure (dbGet st.db m.id) m.joined now).trial_until > now
          · cases hgf : gFail m.id with
            | true =>
              simp only [downgradePhase_cons_some rest n st hv hf,
                setVipToTrial_grace_fail rFail now m st hgf ht]
              refine ⟨ensureRowPure (dbGet st.db m.id) m.joined now, ?_, by rw [hex]⟩
              rw [hid]
              exact dbGet_dbUpsert_self _ _ _
            | false =>
              simp only [downgradePhase_cons_some rest n st hv hf,
                setVipToTrial_grace rFail now m st hgf ht]
              have hget' : dbGet (dbUpsert st.db m.id
                  ⟨(ensureRowPure (dbGet st.db m.id) m.joined now).trial_until,
                    (ensureRowPure (dbGet st.db m.id) m.joined now).trial_until⟩) id =
                  some ⟨(ensureRowPure (dbGet st.db m.id) m.joined now).trial_until,
                    (ensureRowPure (dbGet st.db m.id) m.joined now).trial_until⟩ := by
                rw [hid]
                exact dbGet_dbUpsert_self _ _ _
              obtain ⟨r', hr1, hr2⟩ := ih (n + 1)
                { st with
                  roles := rolesAdd st.roles m.id
                  db := dbUpsert st.db m.id
                    ⟨(ensureRowPure (dbGet st.db m.id) m.joined now).trial_until,
                      (ensureRowPure (dbGet st.db m.id) m.joined now).trial_until⟩ }
                hget' (by simp only [hex]; exact htr)
              refine ⟨r', hr1, ?_⟩
              rw [hr2]
              simp only [hex]
          · simp only [downgradePhase_cons_some rest n st hv hf,
              setVipToTrial_expired rFail now m st ht]
            have hget' : dbGet (dbUpsert st.db m.id
                ⟨0, (ensureRowPure (dbGet st.db m.id) m.joined now).trial_until⟩) id =
                some ⟨0, (ensureRowPure (dbGet st.db m.id) m.joined now).trial_until⟩ := by
              rw [hid]
              exact dbGet_dbUpsert_self _ _ _
            obtain ⟨r', hr1, hr2⟩ := ih (n + 1)
              { st with
                roles :=
                  if st.roles.contains m.id then
                    if rFail m.id then st.roles else rolesRemove st.roles m.id
                  else st.roles
                db := dbUpsert st.db m.id
                  ⟨0, (ensureRowPure (dbGet st.db m.id) m.joined now).trial_until⟩ }
              hget' (by simp only [hex]; exact htr)
            refine ⟨r', hr1, ?_⟩
            rw [hr2]
            simp only [hex]
        · have hidne : id ≠ m.id := hid
          by_cases ht : (ensureRowPure (dbGet st.db m.id) m.joined now).trial_until > now
          · cases hgf : gFail m.id with
            | true =>
              simp only [downgradePhase_cons_some rest n st hv hf,
                setVipToTrial_grace_fail rFail now m st hgf ht]
              exact ⟨r, by rw [dbGet_dbUpsert_ne _ _ hidne]; exact hget, rfl⟩
            | false =>
              simp only [downgradePhase_cons_some rest n st hv hf,
                setVipToTrial_grace rFail now m st hgf ht]
              exact ih (n + 1) _ (by rw [dbGet_dbUpsert_ne _ _ hidne]; exact hget) htr
          · simp only [downgradePhase_cons_some rest n st hv hf,
              setVipToTrial_expired rFail now m st ht]
            exact ih (n + 1) _ (by rw [dbGet_dbUpsert_ne _ _ hidne]; exact hget) htr

/-! ## Expiry-phase lemmas -/

theorem expiryPhase_cons_skip {guild : List Member} {rFail : String → Bool} {now : Nat}
    {k : String} {r : Row} (rest : Db) (n : Nat) (st : St)
    (h : r.vip_until = 0 ∨ r.vip_until ≥ LIFETIME_UNTIL ∨ r.vip_until > now ∨
      fetchMemberSafe guild k = none) :
    expiryPhase guild rFail now ((k, r) :: rest) n st =
      expiryPhase guild rFail now rest n st := by
  rcases h with h | h | h | h
  · simp [expiryPhase, h]
  · by_cases h0 : r.vip_until = 0
    · simp [expiryPhase, h0]
    · simp [expiryPhase, h0, h]
  · by_cases h0 : r.vip_until = 0
    · simp [expiryPhase, h0]
    · by_cases hL : r.vip_until ≥ LIFETIME_UNTIL
      · simp [expiryPhase, h0, hL]
      · simp [expiryPhase, h0, hL, h]
  · by_cases h0 : r.vip_until = 0
    · simp [expiryPhase, h0]
    · by_cases hL : r.vip_until ≥ LIFETIME_UNTIL
      · simp [expiryPhase, h0, hL]
      · by_cases hn : r.vip_until > now
        · simp [expiryPhase, h0, hL, hn]
        · simp [expiryPhase, h0, hL, hn, h]

theorem expiryPhase_cons_remove {guild : List Member} {rFail : String → Bool} {now : Nat}
    {k : String} {r : Row} {m : Member} (rest : Db) (n : Nat) (st : St)
    (h0 : ¬ r.vip_until = 0) (hL : ¬ r.vip_until ≥ LIFETIME_UNTIL)
    (hn : ¬ r.vip_until > now) (hf : fetchMemberSafe guild k = some m) :
    expiryPhase guild rFail now ((k, r) :: rest) n st =
      expiryPhase guild rFail now rest (n + 1) (removeVipIfHas rFail m st) := by
  simp [expiryPhase, h0, hL, hn, hf]

theorem expiryPhase_state {guild : List Member} {rFail : String → Bool} {now : Nat}
    (rows : Db) (n : Nat) (st : St) :
    (expiryPhase guild rFail now rows n st).2.db = st.db ∧
      (expiryPhase guild rFail now rows n st).2.running = st.running := by
  induction rows generalizing n st with
  | nil => exact ⟨rfl, rfl⟩
  | cons p rest ih =>
    obtain ⟨k, r⟩ := p
    by_cases h0 : r.vip_until = 0
    · rw [expiryPhase_cons_skip rest n st (Or.inl h0)]
      exact ih n st
    · by_cases hL : r.vip_until ≥ LIFETIME_UNTIL
      · rw [expiryPhase_cons_skip rest n st (Or.inr (Or.inl hL))]
        exact ih n st
      · by_cases hn : r.vip_until > now
        · rw [expiryPhase_cons_skip rest n st (Or.inr (Or.inr (Or.inl hn)))]
          exact ih n st
        · cases hf : fetchMemberSafe guild k with
          | none =>
            rw [expiryPhase_cons_skip rest n st (Or.inr (Or.inr (Or.inr hf)))]
            exact ih n st
          | some m =>
            rw [expiryPhase_cons_remove rest n st h0 hL hn hf]
            obtain ⟨ihd, ihr⟩ := ih (n + 1) (removeVipIfHas rFail m st)
            exact ⟨ihd.trans (removeVipIfHas_db _ _ _),
              ihr.trans (removeVipIfHas_running _ _ _)⟩

theorem expiryPhase_roles_frame {guild : List Member} {rFail : String → Bool} {now : Nat}
    {rows : Db} {id : String}
    (h : ∀ r, (id, r) ∈ rows → r.vip_until = 0 ∨ r.vip_until ≥ LIFETIME_UNTIL ∨
      r.vip_until > now ∨ fetchMemberSafe guild id = none)
    (n : Nat) (st : St) :
    (id ∈ (expiryPhase guild rFail now rows n st).2.roles ↔ id ∈ st.roles) := by
  induction rows generalizing n st with
  | nil => exact Iff.rfl
  | cons p rest ih =>
    obtain ⟨k, r⟩ := p
    have hrest : ∀ r, (id, r) ∈ rest → r.vip_until = 0 ∨ r.vip_until ≥ LIFETIME_UNTIL ∨
        r.vip_until > now ∨ fetchMemberSafe guild id = none :=
      fun r2 hr2 => h r2 (List.mem_cons_of_mem _ hr2)
    by_cases h0 : r.vip_until = 0
    · rw [expiryPhase_cons_skip rest n st (Or.inl h0)]
      exact ih hrest n st
    · by_cases hL : r.vip_until ≥ LIFETIME_UNTIL
      · rw [expiryPhase_cons_skip rest n st (Or.inr (Or.inl hL))]
        exact ih hrest n st
      · by_cases hn : r.vip_until > now
        · rw [expiryPhase_cons_skip rest n st (Or.inr (Or.inr (Or.inl hn)))]
          exact ih hrest n st
        · cases hf : fetchMemberSafe guild k with
          | none =>
            rw [expiryPhase_cons_skip rest n st (Or.inr (Or.inr (Or.inr hf)))]
            exact ih hrest n st
          | some m =>
            have hmk : m.id = k := fetchMemberSafe_id hf
            have hk : k ≠ id := by
              intro hc
              subst hc
              rcases h r (List.mem_cons_self _ _) with hx | hx | hx | hx
              · exact h0 hx
              · exact hL hx
              · exact hn hx
              · rw [hx] at hf
                cases hf
            rw [expiryPhase_cons_remove rest n st h0 hL hn hf,
              ih hrest (n + 1) (removeVipIfHas rFail m st)]
            exact mem_removeVipIfHas_of_ne rFail m st (by rw [hmk]; exact Ne.symm hk)

theorem expiryPhase_removes {guild : List Member} {rFail : String → Bool} {now : Nat}
    {rows : Db} {id : String} {r : Row} {m : Member}
    (hnd : (rows.map Prod.fst).Nodup)
    (hmem : (id, r) ∈ rows)
    (h0 : ¬ r.vip_until = 0) (hL : ¬ r.vip_until ≥ LIFETIME_UNTIL)
    (hn : ¬ r.vip_until > now)
    (hm : fetchMemberSafe guild id = some m) (hr : rFail id = false)
    (n : Nat) (st : St) :
    id ∉ (expiryPhase guild rFail now rows n st).2.roles := by
  induction rows generalizing n st with
  | nil => simp at hmem
  | cons p rest ih =>
    obtain ⟨k, v⟩ := p
    simp only [List.map_cons, List.nodup_cons] at hnd
    by_cases hk : k = id
    · have hidrest : id ∉ rest.map Prod.fst := by
        rw [← hk]
        exact hnd.1
      have hv : v = r := by
        rcases List.mem_cons.mp hmem with h1 | h1
        · have h1' : id = k ∧ r = v := by simpa using h1
          exact h1'.2.symm
        · exact absurd (List.mem_map.mpr ⟨(id, r), h1, rfl⟩) hidrest
      subst hv
      have hmk : m.id = id := fetchMemberSafe_id hm
      have hfk : fetchMemberSafe guild k = some m := by rw [hk]; exact hm
      rw [expiryPhase_cons_remove rest n st h0 hL hn hfk]
      have hrm : id ∉ (removeVipIfHas rFail m st).roles := by
        rw [← hmk]
        exact not_mem_removeVipIfHas m st (by rw [hmk]; exact hr)
      have hfr := @expiryPhase_roles_frame guild rFail now rest id
        (fun r2 hr2 => absurd (List.mem_map.mpr ⟨(id, r2), hr2, rfl⟩) hidrest)
        (n + 1) (removeVipIfHas rFail m st)
      rw [hfr]
      exact hrm
    · have hmem' : (id, r) ∈ rest := by
        rcases List.mem_cons.mp hmem with h1 | h1
        · exfalso
          apply hk
          have h1' : id = k ∧ r = v := by simpa using h1
          exact h1'.1.symm
        · exact h1
      by_cases hz : v.vip_until = 0
      · rw [expiryPhase_cons_skip rest n st (Or.inl hz)]
        exact ih hnd.2 hmem' n st
      · by_cases hvL : v.vip_until ≥ LIFETIME_UNTIL
        · rw [expiryPhase_cons_skip rest n st (Or.inr (Or.inl hvL))]
          exact ih hnd.2 hmem' n st
        · by_cases hvn : v.vip_until > now
          · rw [expiryPhase_cons_skip rest n st (Or.inr (Or.inr (Or.inl hvn)))]
            exact ih hnd.2 hmem' n st
          · cases hf : fetchMemberSafe guild k with
            | none =>
              rw [expiryPhase_cons_skip rest n st (Or.inr (Or.inr (Or.inr hf)))]
              exact ih hnd.2 hmem' n st
            | some m2 =>
              rw [expiryPhase_cons_remove rest n st hz hvL hvn hf]
              exact ih hnd.2 hmem' (n + 1) _

/-! ## Whole-pass assembly -/

theorem syncBody_run {env : Env} {st0 : St} {elig : EligMap}
    (helig : getEligibilityMap env.rows = .ok elig)
    (hg : ∀ x, env.grantFails x = false) :
    ∃ n1 n2 n3 st1 st2 st3,
      grantPhase env.guild env.grantFails env.now elig 0 st0 = (.ok n1, st1) ∧
      downgradePhase env.guild env.grantFails env.removeFails env.now elig
        (lifetimeKeys st0.db) 0 st1 = (.ok n2, st2) ∧
      expiryPhase env.guild env.removeFails env.now st0.db 0 st2 = (n3, st3) ∧
      syncBody env st0 = (.ok (.done ⟨n1, n2, n3, elig.length⟩), st3) := by
  obtain ⟨n1, st1, h1⟩ := grantPhase_ok hg elig 0 st0
  obtain ⟨n2, st2, h2⟩ := @downgradePhase_ok env.guild env.grantFails env.removeFails env.now elig hg
      (lifetimeKeys st0.db) 0 st1
  cases hexp : expiryPhase env.guild env.removeFails env.now st0.db 0 st2 with
  | mk n3 st3 =>
    refine ⟨n1, n2, n3, st1, st2, st3, h1, h2, hexp, ?_⟩
    unfold syncBody
    simp only [helig, h1, h2, hexp]

theorem syncFromSheetOptimised_not_running {env : Env} {st : St}
    (hrun : st.running = false) :
    syncFromSheetOptimised env st =
      ((syncBody env { st with running := true }).1,
        { (syncBody env { st with running := true }).2 with running := false }) := by
  unfold syncFromSheetOptimised
  rw [if_neg (by rw [hrun]; exact Bool.false_ne_true)]

theorem syncFromSheetOptimised_run {env : Env} {st : St} {elig : EligMap}
    (hrun : st.running = false)
    (helig : getEligibilityMap env.rows = .ok elig)
    (hg : ∀ x, env.grantFails x = false) :
    ∃ n1 n2 n3 st1 st2 st3,
      grantPhase env.guild env.grantFails env.now elig 0
        { st with running := true } = (.ok n1, st1) ∧
      downgradePhase env.guild env.grantFails env.removeFails env.now elig
        (lifetimeKeys st.db) 0 st1 = (.ok n2, st2) ∧
      expiryPhase env.guild env.removeFails env.now st.db 0 st2 = (n3, st3) ∧
      syncFromSheetOptimised env st =
        (.ok (.done ⟨n1, n2, n3, elig.length⟩), { st3 with running := false }) := by
  obtain ⟨n1, n2, n3, st1, st2, st3, h1, h2, h3, hbody⟩ :=
    @syncBody_run env { st with running := true } _ helig hg
  refine ⟨n1, n2, n3, st1, st2, st3, h1, h2, h3, ?_⟩
  rw [syncFromSheetOptimised_not_running hrun, hbody]

/-- The hourly cleanup loop is the expiry phase minus the counter. -/
theorem hourlyCleanupLoop_eq {guild : List Member} {rFail : String → Bool} {now : Nat}
    (rows : Db) (n : Nat) (st : St) :
    hourlyCleanupLoop guild rFail now rows st =
      (expiryPhase guild rFail now rows n st).2 := by
  induction rows generalizing n st with
  | nil => rfl
  | cons p rest ih =>
    obtain ⟨k, r⟩ := p
    by_cases h0 : r.vip_until = 0
    · rw [expiryPhase_cons_skip rest n st (Or.inl h0)]
      simp only [hourlyCleanupLoop, h0, if_pos]
      exact ih n st
    · by_cases hL : r.vip_until ≥ LIFETIME_UNTIL
      · rw [expiryPhase_cons_skip rest n st (Or.inr (Or.inl hL))]
        simp only [hourlyCleanupLoop, h0, if_neg, hL, if_pos]
        exact ih n st
      · by_cases hn : r.vip_until > now
        · rw [expiryPhase_cons_skip rest n st (Or.inr (Or.inr (Or.inl hn)))]
          simp [hourlyCleanupLoop, h0, hL, hn]
          exact ih n st
        · cases hf : fetchMemberSafe guild k with
          | none =>
            rw [expiryPhase_cons_skip rest n st (Or.inr (Or.inr (Or.inr hf)))]
            simp [hourlyCleanupLoop, h0, hL, hn, hf]
            exact ih n st
          | some m =>
            rw [expiryPhase_cons_remove rest n st h0 hL hn hf]
            simp [hourlyCleanupLoop, h0, hL, hn, hf]
            exact ih (n + 1) (removeVipIfHas rFail m st)

theorem fetchMemberSafe_mem {guild : List Member} {id : String} {m : Member}
    (h : fetchMemberSafe guild id = some m) : m ∈ guild := by
  induction guild with
  | nil => simp [fetchMemberSafe] at h
  | cons g rest ih =>
    by_cases hg : g.id = id
    · simp [fetchMemberSafe, hg] at h
      simp [← h]
    · simp only [fetchMemberSafe, hg, if_neg] at h
      exact List.mem_cons_of_mem _ (ih h)

theorem vipOf_some {db : Db} {id : String} {r : Row} (h : dbGet db id = some r) :
    vipOf db id = r.vip_until := by
  simp [vipOf, h]

theorem vipOf_none {db : Db} {id : String} (h : dbGet db id = none) :
    vipOf db id = 0 := by
  simp [vipOf, h]

/-- When every approved, fetchable member already has a lifetime record
with a non-zero trial, the grant phase rewrites each such record with the
values it already holds and the store is unchanged. -/
theorem grantPhase_db_noop {guild : List Member} {gFail : String → Bool} {now : Nat}
    {l : EligMap} (n : Nat) (st : St)
    (h : ∀ id m, (id, true) ∈ l → fetchMemberSafe guild id = some m →
      ∃ t, dbGet st.db id = some ⟨LIFETIME_UNTIL, t⟩ ∧ t ≠ 0) :
    (grantPhase guild gFail now l n st).2.db = st.db := by
  induction l generalizing n st with
  | nil => rfl
  | cons p rest ih =>
    obtain ⟨k, b⟩ := p
    have hrest : ∀ id m, (id, true) ∈ rest → fetchMemberSafe guild id = some m →
        ∃ t, dbGet st.db id = some ⟨LIFETIME_UNTIL, t⟩ ∧ t ≠ 0 :=
      fun id m hmem hm => h id m (List.mem_cons_of_mem _ hmem) hm
    cases b with
    | false => simpa only [grantPhase] using ih n st hrest
    | true =>
      cases hf : fetchMemberSafe guild k with
      | none => simpa only [grantPhase, hf] using ih n st hrest
      | some m =>
        have hmk : m.id = k := fetchMemberSafe_id hf
        obtain ⟨t, hdb, ht0⟩ := h k m (List.mem_cons_self _ _) hf
        cases hgf : gFail m.id with
        | true =>
          simp only [grantPhase, hf, setVipLifetime_fail now m st hgf]
        | false =>
          have hdbm : dbGet st.db m.id = some ⟨LIFETIME_UNTIL, t⟩ := by
            rw [hmk]
            exact hdb
          have hsvl : svlTrial (dbGet st.db m.id) m.joined now = t := by
            rw [hdbm, svlTrial_eq,
              @ensureRowPure_of_trial_ne_zero ⟨LIFETIME_UNTIL, t⟩ _ _ ht0]
          have hup : dbUpsert st.db m.id
              ⟨LIFETIME_UNTIL, svlTrial (dbGet st.db m.id) m.joined now⟩ = st.db := by
            rw [hsvl]
            exact dbUpsert_self_eq _ hdbm
          simp only [grantPhase, hf, setVipLifetime_eq now m st hgf, hup]
          have := ih (n + 1) { st with roles := rolesAdd st.roles m.id, db := st.db }
            (fun id m2 hmem hm2 => hrest id m2 hmem hm2)
          simpa using this

/-- The pass body, whatever its outcome, never changes an established
non-zero `trial_until`. -/
theorem syncBody_trial (env : Env) (st0 : St) {id : String} {r : Row}
    (hget : dbGet st0.db id = some r) (htr : r.trial_until ≠ 0) :
    ∃ r', dbGet (syncBody env st0).2.db id = some r' ∧
      r'.trial_until = r.trial_until := by
  unfold syncBody
  cases helig : getEligibilityMap env.rows with
  | error e => exact ⟨r, hget, rfl⟩
  | ok elig =>
    dsimp only
    cases hgp : grantPhase env.guild env.grantFails env.now elig 0 st0 with
    | mk res1 st1 =>
      obtain ⟨r1, hr1, e1⟩ := @grantPhase_trial env.guild env.grantFails env.now
        elig 0 st0 _ _ hget htr
      rw [hgp] at hr1
      cases res1 with
      | error e => exact ⟨r1, hr1, e1⟩
      | ok n1 =>
        dsimp only
        cases hdp : downgradePhase env.guild env.grantFails env.removeFails env.now
            elig (lifetimeKeys st0.db) 0 st1 with
        | mk res2 st2 =>
          obtain ⟨r2, hr2, e2⟩ := @downgradePhase_trial env.guild env.grantFails
            env.removeFails env.now elig
            (lifetimeKeys st0.db) 0 st1 _ _ hr1 (by rw [e1]; exact htr)
          rw [hdp] at hr2
          cases res2 with
          | error e => exact ⟨r2, hr2, e2.trans e1⟩
          | ok n2 =>
            dsimp only
            cases hexp : expiryPhase env.guild env.removeFails env.now st0.db 0 st2 with
            | mk n3 st3 =>
              have hdb3 : st3.db = st2.db := by
                have hst := (@expiryPhase_state env.guild env.removeFails env.now
                  st0.db 0 st2).1
                rw [hexp] at hst
                exact hst
              refine ⟨r2, ?_, e2.trans e1⟩
              show dbGet st3.db id = some r2
              rw [hdb3]
              exact hr2

/-- A reconciliation pass, whatever its outcome (skipped, completed,
schema error, or aborted by an uncaught role-grant rejection), never
changes an established non-zero `trial_until`. -/
theorem syncFromSheetOptimised_trial (env : Env) (st : St) {id : String} {r : Row}
    (hget : dbGet st.db id = some r) (htr : r.trial_until ≠ 0) :
    ∃ r', dbGet (syncFromSheetOptimised env st).2.db id = some r' ∧
      r'.trial_until = r.trial_until := by
  unfold syncFromSheetOptimised
  by_cases hrun : st.running = true
  · rw [if_pos hrun]
    exact ⟨r, hget, rfl⟩
  · rw [if_neg hrun]
    exact syncBody_trial env { st with running := true } hget htr

/-! ## Claim theorems -/

/-- C7: an invocation of `syncFromSheetOptimised` that arrives while
another pass is running returns `{skipped:true}` immediately, performing
no store write or role mutation (the state is returned unchanged); and
whenever a pass actually starts (flag was clear), the flag is false again
after it ends, whether the body completed or threw, so a later invocation
is never rejected as already-running. -/
theorem claim_C7_single_flight (env : Env) (st : St) :
    (st.running = true → syncFromSheetOptimised env st = (.ok .skipped, st)) ∧
    (st.running = false → (syncFromSheetOptimised env st).2.running = false) := by
  constructor
  · intro h
    unfold syncFromSheetOptimised
    rw [if_pos h]
  · intro h
    rw [syncFromSheetOptimised_not_running h]

def envC7w : Env :=
  { rows := []
    guild := []
    now := 0
    grantFails := fun _ => false
    removeFails := fun _ => false }

/-- Witness for C7 at a concrete environment and both flag states. -/
theorem claim_C7_witness :
    syncFromSheetOptimised envC7w { running := true, db := [], roles := [] } =
      (.ok .skipped, { running := true, db := [], roles := [] }) ∧
    (syncFromSheetOptimised envC7w { running := false, db := [], roles := [] }).2.running =
      false :=
  ⟨(claim_C7_single_flight envC7w _).1 rfl, (claim_C7_single_flight envC7w _).2 rfl⟩

/-- C8: the status query is a pure read of the store (it takes the store
and returns only a status) and maps a member to no-VIP exactly when no
record exists or the stored `vip_until` is zero, to lifetime exactly when
`vip_until ≥ LIFETIME`, to active-until-t exactly when `vip_until = t` is
in the future and below `LIFETIME`, and to expired exactly when
`vip_until` is non-zero and not in the future. -/
theorem claim_C8_status (db : Db) (now : Nat) (id : String)
    (hnow : now < LIFETIME_UNTIL) :
    (statusQuery db now id = .noVip ↔
      dbGet db id = none ∨ ∃ r, dbGet db id = some r ∧ r.vip_until = 0) ∧
    (statusQuery db now id = .lifetime ↔
      ∃ r, dbGet db id = some r ∧ r.vip_until ≥ LIFETIME_UNTIL) ∧
    (∀ t, statusQuery db now id = .activeUntil t ↔
      ∃ r, dbGet db id = some r ∧ r.vip_until = t ∧ now < t ∧ t < LIFETIME_UNTIL) ∧
    (statusQuery db now id = .expired ↔
      ∃ r, dbGet db id = some r ∧ r.vip_until ≠ 0 ∧ r.vip_until ≤ now) := by
  cases hdb : dbGet db id with
  | none => simp [statusQuery, hdb]
  | some r =>
    by_cases h0 : r.vip_until = 0
    · simp [statusQuery, hdb, h0]
      omega
    · by_cases hL : r.vip_until ≥ LIFETIME_UNTIL
      · simp [statusQuery, hdb, h0, hL]
        omega
      · by_cases hf : r.vip_until > now
        · simp [statusQuery, hdb, h0, hL, hf]
          omega
        · simp [statusQuery, hdb, h0, hL, hf]
          omega

/-- Witness for C8 at a concrete store, clock and member. -/
theorem claim_C8_witness :
    (0 : Nat) < LIFETIME_UNTIL ∧
    (statusQuery [("a", ⟨7, 3⟩)] 0 "a" = .activeUntil 7 ↔
      ∃ r, dbGet [("a", ⟨7, 3⟩)] "a" = some r ∧ r.vip_until = 7 ∧ 0 < 7 ∧
        (7 : Nat) < LIFETIME_UNTIL) :=
  ⟨by decide, (claim_C8_status [("a", ⟨7, 3⟩)] 0 "a" (by decide)).2.2.1 7⟩

/-- C10: the hourly cleanup job performs exactly the expiry phase's action
on the current store (same per-record filter, same role removal), writes
nothing to the store, and ignores the single-flight flag (it acts on any
state, preserving the flag). -/
theorem claim_C10_hourly_cleanup (guild : List Member) (rFail : String → Bool)
    (now : Nat) (st : St) :
    hourlyCleanup guild rFail now st = (expiryPhase guild rFail now st.db 0 st).2 ∧
    (hourlyCleanup guild rFail now st).db = st.db ∧
    (hourlyCleanup guild rFail now st).running = st.running := by
  have he : hourlyCleanup guild rFail now st =
      (expiryPhase guild rFail now st.db 0 st).2 :=
    hourlyCleanupLoop_eq st.db 0 st
  refine ⟨he, ?_, ?_⟩
  · rw [he]
    exact (expiryPhase_state st.db 0 st).1
  · rw [he]
    exact (expiryPhase_state st.db 0 st).2

def envC5cx : Env :=
  { rows := [["foo"]]
    guild := []
    now := 0
    grantFails := fun _ => false
    removeFails := fun _ => false }

/-- C5 counterexample: a roster consisting of a single header row lacking
both required columns does NOT produce a schema error — the
fewer-than-two-rows early return yields an empty eligibility map and the
pass completes normally, contradicting the claim as stated. -/
theorem claim_C5_counterexample :
    getEligibilityMap [["foo"]] = .ok [] ∧
    syncFromSheetOptimised envC5cx { running := false, db := [], roles := [] } =
      (.ok (.done ⟨0, 0, 0, 0⟩), { running := false, db := [], roles := [] }) := by
  constructor
  · rfl
  · rfl

/-- C5 (amended): for every roster with AT LEAST TWO rows whose header row
lacks the member-identifier column or the approval column, building the
eligibility map fails with a schema error, and a pass given such a roster
aborts with that error before any store write or role mutation, leaving
the state exactly unchanged. -/
theorem claim_C5_schema_abort {env : Env} {st : St}
    (hrun : st.running = false)
    (hlen : 2 ≤ env.rows.length)
    (hmiss : ((env.rows.headD []).map (fun h => sTrim (sLower h))).findIdx?
        (fun h => h = "discord_id") = none ∨
      ((env.rows.headD []).map (fun h => sTrim (sLower h))).findIdx?
        (fun h => h = "lifetime_vip") = none) :
    ∃ e, getEligibilityMap env.rows = .error e ∧
      syncFromSheetOptimised env st = (.error e, st) := by
  have hnlt : ¬ env.rows.length < 2 := by omega
  have helig : ∃ e, getEligibilityMap env.rows = .error e := by
    unfold getEligibilityMap
    rw [if_neg hnlt]
    dsimp only
    rcases hmiss with h | h
    · simp only [h]
      exact ⟨_, rfl⟩
    · cases hd : ((env.rows.headD []).map (fun h => sTrim (sLower h))).findIdx?
          (fun h => h = "discord_id") with
      | none =>
        simp only [hd]
        exact ⟨_, rfl⟩
      | some discordIdx =>
        simp only [hd, h]
        exact ⟨_, rfl⟩
  obtain ⟨e, he⟩ := helig
  refine ⟨e, he, ?_⟩
  rw [syncFromSheetOptimised_not_running hrun]
  unfold syncBody
  simp only [he]
  cases st with
  | mk r d ro =>
    simp only at hrun
    subst hrun
    rfl

def envC2cx : Env :=
  { rows := [["discord_id", "lifetime_vip"], ["1", "YES"], ["2", "YES"]]
    guild := [⟨"1", 10⟩, ⟨"2", 10⟩]
    now := 5000
    grantFails := fun s => s = "1"
    removeFails := fun _ => false }

/-- C2 counterexample: with members "1" and "2" both approved and present,
and the platform rejecting the role grant for "1", the pass aborts with an
uncaught error and member "2" is never processed (the pass does not
continue for the other members), contradicting the claimed per-member
isolation of grant failures. -/
theorem claim_C2_counterexample :
    (syncFromSheetOptimised envC2cx { running := false, db := [], roles := [] }).1 =
      .error "roles.add failed" ∧
    dbGet (syncFromSheetOptimised envC2cx
      { running := false, db := [], roles := [] }).2.db "2" = none := by
  constructor
  · rfl
  · rfl

/-- C2 (amended): role-REMOVAL failures are isolated per member — with a
well-formed roster and no grant failures, the pass completes and returns a
summary for EVERY pattern of removal failures (`env.removeFails` is
arbitrary here); role-grant failures, by contrast, are not caught and
abort the pass (see the counterexample). -/
theorem claim_C2_removal_isolated {env : Env} {st : St} {elig : EligMap}
    (hrun : st.running = false)
    (helig : getEligibilityMap env.rows = .ok elig)
    (hg : ∀ x, env.grantFails x = false) :
    ∃ s, (syncFromSheetOptimised env st).1 = .ok (.done s) := by
  obtain ⟨n1, n2, n3, st1, st2, st3, _, _, _, hsync⟩ :=
    syncFromSheetOptimised_run hrun helig hg
  exact ⟨⟨n1, n2, n3, elig.length⟩, by rw [hsync]⟩

def envC2w : Env :=
  { rows := [["discord_id", "lifetime_vip"], ["1", "YES"]]
    guild := [⟨"1", 10⟩, ⟨"2", 10⟩]
    now := 5000
    grantFails := fun _ => false
    removeFails := fun _ => true }

/-- Witness for the amended C2: the pass completes although every role
removal is rejected by the platform. -/
theorem claim_C2_witness :
    ∃ s, (syncFromSheetOptimised envC2w
      { running := false, db := [("2", ⟨40, 40⟩)], roles := ["2"] }).1 =
      .ok (.done s) :=
  @claim_C2_removal_isolated envC2w
    { running := false, db := [("2", ⟨40, 40⟩)], roles := ["2"] }
    [("1", true)] rfl rfl (fun _ => rfl)

/-- C6 counterexample: `grantTrialOnJoin` — one of the automatic
operations named by the claim — unconditionally overwrites an existing
non-zero `trial_until` on a re-join (member "1" had `trial_until = 5`;
after the join-time grant it is `now + 30 days ≠ 5`). -/
theorem claim_C6_counterexample :
    dbGet (grantTrialOnJoin (fun _ => false) 100 ⟨"1", 50⟩
      { running := false, db := [("1", ⟨0, 5⟩)], roles := [] }).2.db "1" =
      some ⟨100 + ONE_MONTH, 100 + ONE_MONTH⟩ ∧
    (100 + ONE_MONTH : Nat) ≠ 5 := by
  constructor
  · rfl
  · decide

/-- C6 (amended): the trial backfill (`ensureTrialRecordFor`) leaves the
state untouched for a member whose stored `trial_until` is non-zero, and a
reconciliation pass — whatever its outcome — never changes an established
non-zero `trial_until`; the join-time grant, however, unconditionally
resets it (see the counterexample). -/
theorem claim_C6_trial_immutable :
    (∀ (now : Nat) (m : Member) (st : St) (r : Row),
      dbGet st.db m.id = some r → r.trial_until ≠ 0 →
      (ensureTrialRecordFor now m st).2 = st) ∧
    (∀ (env : Env) (st : St) (id : String) (r : Row),
      dbGet st.db id = some r → r.trial_until ≠ 0 →
      ∃ r', dbGet (syncFromSheetOptimised env st).2.db id = some r' ∧
        r'.trial_until = r.trial_until) := by
  constructor
  · intro now m st r hdb htr
    unfold ensureTrialRecordFor
    simp [hdb, htr]
  · intro env st id r hdb htr
    exact syncFromSheetOptimised_trial env st hdb htr

def envC6w : Env :=
  { rows := [["discord_id", "lifetime_vip"], ["1", "NO"]]
    guild := [⟨"1", 10⟩]
    now := 5000
    grantFails := fun _ => false
    removeFails := fun _ => false }

/-- Witness for the amended C6 at a concrete member and pass. -/
theorem claim_C6_witness :
    (ensureTrialRecordFor 100 ⟨"1", 50⟩
        { running := false, db := [("1", ⟨7, 5⟩)], roles := [] }).2 =
      { running := false, db := [("1", ⟨7, 5⟩)], roles := [] } ∧
    ∃ r', dbGet (syncFromSheetOptimised envC6w
        { running := false, db := [("1", ⟨7, 5⟩)], roles := [] }).2.db "1" =
      some r' ∧ r'.trial_until = 5 :=
  ⟨claim_C6_trial_immutable.1 100 ⟨"1", 50⟩ _ ⟨7, 5⟩ rfl (by decide),
    claim_C6_trial_immutable.2 envC6w _ "1" ⟨7, 5⟩ rfl (by decide)⟩

def envC5w : Env :=
  { rows := [["discord_id", "x"], ["1", "YES"]]
    guild := []
    now := 0
    grantFails := fun _ => false
    removeFails := fun _ => false }

/-- Witness for the amended C5 at a concrete malformed roster. -/
theorem claim_C5_witness :
    ∃ e, getEligibilityMap envC5w.rows = .error e ∧
      syncFromSheetOptimised envC5w
        { running := false, db := [("9", ⟨7, 7⟩)], roles := ["9"] } =
      (.error e, { running := false, db := [("9", ⟨7, 7⟩)], roles := ["9"] }) :=
  claim_C5_schema_abort rfl (by decide) (Or.inr rfl)

def envC1cx : Env :=
  { rows := [["discord_id", "lifetime_vip"], ["7", "YES"]]
    guild := []
    now := 0
    grantFails := fun _ => false
    removeFails := fun _ => false }

/-- C1 counterexample: member "7" is present in the roster snapshot and
approved, but not resolvable on the platform; the pass completes with no
stored record for "7", so `storedVipUntil ≥ LIFETIME` is false while the
eligibility map maps "7" to `approved = true` — the claimed equivalence
fails for roster members who are not on the platform. -/
theorem claim_C1_counterexample :
    getEligibilityMap envC1cx.rows = .ok [("7", true)] ∧
    (syncFromSheetOptimised envC1cx { running := false, db := [], roles := [] }).1 =
      .ok (.done ⟨0, 0, 0, 1⟩) ∧
    ¬ (vipOf (syncFromSheetOptimised envC1cx
        { running := false, db := [], roles := [] }).2.db "7" ≥ LIFETIME_UNTIL ↔
      eligGet [("7", true)] "7" = some true) := by
  refine ⟨rfl, rfl, ?_⟩
  decide

/-- C1 (amended): the core invariant holds for every member ID present in
the roster snapshot AND resolvable on the platform at pass time: after a
completed (non-skipped) pass, the stored `vipUntil` is `≥ LIFETIME` iff the
eligibility map maps that ID to `approved = true`. -/
theorem claim_C1_invariant {env : Env} {st : St} {elig : EligMap} {id : String}
    {b : Bool} {m : Member}
    (hrun : st.running = false)
    (helig : getEligibilityMap env.rows = .ok elig)
    (hg : ∀ x, env.grantFails x = false)
    (hnd : (st.db.map Prod.fst).Nodup)
    (hbt : ∀ p ∈ st.db, p.2.trial_until < LIFETIME_UNTIL)
    (hnow : env.now + ONE_MONTH < LIFETIME_UNTIL)
    (hguild : ∀ mb ∈ env.guild, mb.joined + ONE_MONTH < LIFETIME_UNTIL)
    (hb : (id, b) ∈ elig)
    (hm : fetchMemberSafe env.guild id = some m) :
    (∃ s, (syncFromSheetOptimised env st).1 = .ok (.done s)) ∧
    (vipOf (syncFromSheetOptimised env st).2.db id ≥ LIFETIME_UNTIL ↔ b = true) := by
  obtain ⟨n1, n2, n3, st1, st2, st3, h1, h2, h3, hsync⟩ :=
    syncFromSheetOptimised_run hrun helig hg
  have hel_nd := getEligibilityMap_nodup helig
  have hdb32 : st3.db = st2.db := by
    have hst := (@expiryPhase_state env.guild env.removeFails env.now st.db 0 st2).1
    rw [h3] at hst
    exact hst
  have hdbfinal : (syncFromSheetOptimised env st).2.db = st2.db := by
    rw [hsync]
    exact hdb32
  refine ⟨⟨_, by rw [hsync]⟩, ?_⟩
  rw [hdbfinal]
  cases b with
  | true =>
    have heg : eligGet elig id = some true := eligGet_of_mem hel_nd hb
    obtain ⟨hgd, _⟩ := grantPhase_effect hg hel_nd hb hm 0 { st with running := true }
    rw [h1] at hgd
    have hgd' : dbGet st1.db id =
        some ⟨LIFETIME_UNTIL, svlTrial (dbGet st.db id) m.joined env.now⟩ := hgd
    obtain ⟨hdd, _⟩ := @downgradePhase_frame env.guild env.grantFails env.removeFails
      env.now elig (lifetimeKeys st.db) id (Or.inl heg) 0 st1
    rw [h2] at hdd
    have hval : vipOf st2.db id = LIFETIME_UNTIL := by
      rw [vipOf_some (hdd.trans hgd')]
    rw [hval]
    simp
  | false =>
    have heg : eligGet elig id = some false := eligGet_of_mem hel_nd hb
    have hegne : eligGet elig id ≠ some true := by rw [heg]; simp
    have hnottrue : (id, true) ∉ elig := not_mem_of_eligGet_ne hel_nd hegne
    obtain ⟨hgd, _⟩ := @grantPhase_frame env.guild env.grantFails env.now elig id
      (Or.inl hnottrue) 0 { st with running := true }
    rw [h1] at hgd
    have hgd' : dbGet st1.db id = dbGet st.db id := hgd
    have hlt : ¬ vipOf st2.db id ≥ LIFETIME_UNTIL := by
      by_cases hml : id ∈ lifetimeKeys st.db
      · by_cases ht : (ensureRowPure (dbGet st1.db id) m.joined env.now).trial_until >
            env.now
        · obtain ⟨hdd, _⟩ := downgradePhase_grace hg (lifetimeKeys_nodup hnd) hml
            hegne hm 0 st1 ht
          rw [h2] at hdd
          have hexlt : (ensureRowPure (dbGet st1.db id) m.joined env.now).trial_until <
              LIFETIME_UNTIL := by
            apply ensureRowPure_trial_lt
            · intro rr hrr
              rw [hgd'] at hrr
              have := hbt (id, rr) (mem_of_dbGet hrr)
              exact this
            · exact hguild m (fetchMemberSafe_mem hm)
            · exact hnow
          rw [vipOf_some hdd]
          dsimp only
          omega
        · have hdd := @downgradePhase_expired env.guild env.grantFails env.removeFails
            env.now elig (lifetimeKeys st.db) id m
            hg (lifetimeKeys_nodup hnd) hml hegne hm 0 st1 ht
          rw [h2] at hdd
          rw [vipOf_some hdd]
          dsimp only
          decide
      · obtain ⟨hdd, _⟩ := @downgradePhase_frame env.guild env.grantFails
          env.removeFails env.now elig (lifetimeKeys st.db) id (Or.inr hml) 0 st1
        rw [h2] at hdd
        have hfin : dbGet st2.db id = dbGet st.db id := hdd.trans hgd'
        cases hdb : dbGet st.db id with
        | none =>
          rw [vipOf_none (hfin.trans hdb)]
          decide
        | some rr =>
          rw [vipOf_some (hfin.trans hdb)]
          intro hge
          exact hml (mem_lifetimeKeys.mpr ⟨rr, mem_of_dbGet hdb, hge⟩)
    constructor
    · intro hge
      exact absurd hge hlt
    · intro hfalse
      exact Bool.noConfusion hfalse

def envC1w : Env :=
  { rows := [["discord_id", "lifetime_vip"], ["5", "YES"]]
    guild := [⟨"5", 10⟩]
    now := 1000
    grantFails := fun _ => false
    removeFails := fun _ => false }

/-- Witness for the amended C1 at a concrete approved, present member. -/
theorem claim_C1_witness :
    (∃ s, (syncFromSheetOptimised envC1w
      { running := false, db := [], roles := [] }).1 = .ok (.done s)) ∧
    (vipOf (syncFromSheetOptimised envC1w
        { running := false, db := [], roles := [] }).2.db "5" ≥ LIFETIME_UNTIL ↔
      true = true) :=
  @claim_C1_invariant envC1w { running := false, db := [], roles := [] }
    [("5", true)] "5" true ⟨"5", 10⟩ rfl rfl (fun _ => rfl) (by simp)
    (by intro p hp; cases hp) (by decide) (by decide)
    (List.mem_cons_self _ _) rfl

def envC4cx : Env :=
  { rows := [["discord_id", "lifetime_vip"], ["1", "NO"]]
    guild := []
    now := 1000
    grantFails := fun _ => false
    removeFails := fun _ => false }

/-- C4 counterexample: member "9" has stored `vipUntil = LIFETIME`, is
absent from the eligibility map, and has `trialUntil = 2000` still in the
future (`now = 1000`), but is not resolvable on the platform: the pass
completes leaving `vipUntil = LIFETIME ≠ trialUntil`, so the claim as
stated (with no platform-presence condition) fails. -/
theorem claim_C4_counterexample :
    (syncFromSheetOptimised envC4cx
      { running := false, db := [("9", ⟨LIFETIME_UNTIL, 2000⟩)], roles := ["9"] }).1 =
      .ok (.done ⟨0, 0, 0, 1⟩) ∧
    dbGet (syncFromSheetOptimised envC4cx
      { running := false, db := [("9", ⟨LIFETIME_UNTIL, 2000⟩)], roles := ["9"] }).2.db
      "9" = some ⟨LIFETIME_UNTIL, 2000⟩ ∧
    (LIFETIME_UNTIL : Nat) ≠ 2000 := by
  refine ⟨rfl, rfl, by decide⟩

/-- C4 (amended): grace demotion holds for members resolvable on the
platform: for every member whose stored `vipUntil ≥ LIFETIME`, who is
absent from the eligibility map or mapped to `approved = false`, whose
stored `trialUntil` is still in the future at pass time, and who is
present on the platform, the pass keeps (ensures) the platform role and
sets the stored `vipUntil` equal to `trialUntil`, not 0. -/
theorem claim_C4_grace {env : Env} {st : St} {elig : EligMap} {id : String}
    {r : Row} {m : Member}
    (hrun : st.running = false)
    (helig : getEligibilityMap env.rows = .ok elig)
    (hg : ∀ x, env.grantFails x = false)
    (hnd : (st.db.map Prod.fst).Nodup)
    (hv : dbGet st.db id = some r)
    (hge : r.vip_until ≥ LIFETIME_UNTIL)
    (hegne : eligGet elig id ≠ some true)
    (htr : r.trial_until > env.now)
    (hm : fetchMemberSafe env.guild id = some m) :
    dbGet (syncFromSheetOptimised env st).2.db id =
      some ⟨r.trial_until, r.trial_until⟩ ∧
    id ∈ (syncFromSheetOptimised env st).2.roles := by
  obtain ⟨n1, n2, n3, st1, st2, st3, h1, h2, h3, hsync⟩ :=
    syncFromSheetOptimised_run hrun helig hg
  have hel_nd := getEligibilityMap_nodup helig
  have hnottrue : (id, true) ∉ elig := not_mem_of_eligGet_ne hel_nd hegne
  obtain ⟨hgd, _⟩ := @grantPhase_frame env.guild env.grantFails env.now elig id
    (Or.inl hnottrue) 0 { st with running := true }
  rw [h1] at hgd
  have hgd' : dbGet st1.db id = some r := by
    have hx : dbGet st1.db id = dbGet st.db id := hgd
    rw [hx, hv]
  have hrt0 : r.trial_until ≠ 0 := by omega
  have hex : ensureRowPure (dbGet st1.db id) m.joined env.now = r := by
    rw [hgd']
    exact ensureRowPure_of_trial_ne_zero _ _ hrt0
  have hml : id ∈ lifetimeKeys st.db :=
    mem_lifetimeKeys.mpr ⟨r, mem_of_dbGet hv, hge⟩
  have ht : (ensureRowPure (dbGet st1.db id) m.joined env.now).trial_until > env.now := by
    rw [hex]
    exact htr
  obtain ⟨hdd, hdr⟩ := downgradePhase_grace hg (lifetimeKeys_nodup hnd) hml
    hegne hm 0 st1 ht
  rw [h2] at hdd hdr
  have hdb32 : st3.db = st2.db := by
    have hst := (@expiryPhase_state env.guild env.removeFails env.now st.db 0 st2).1
    rw [h3] at hst
    exact hst
  have hroles : id ∈ st3.roles ↔ id ∈ st2.roles := by
    have hfr := @expiryPhase_roles_frame env.guild env.removeFails env.now st.db id
      (fun r2 hr2 => by
        have : r2 = r := dbGet_unique hnd hr2 (mem_of_dbGet hv)
        rw [this]
        exact Or.inr (Or.inl hge))
      0 st2
    rw [h3] at hfr
    exact hfr
  constructor
  · rw [hsync]
    show dbGet st3.db id = _
    rw [hdb32, hdd, hex]
  · rw [hsync]
    show id ∈ st3.roles
    rw [hroles]
    exact hdr

def envC4w : Env :=
  { rows := [["discord_id", "lifetime_vip"], ["1", "NO"]]
    guild := [⟨"9", 10⟩]
    now := 1000
    grantFails := fun _ => false
    removeFails := fun _ => false }

/-- Witness for the amended C4 at a concrete demoted, present member. -/
theorem claim_C4_witness :
    dbGet (syncFromSheetOptimised envC4w
      { running := false, db := [("9", ⟨LIFETIME_UNTIL, 2000⟩)], roles := ["9"] }).2.db
      "9" = some ⟨2000, 2000⟩ ∧
    "9" ∈ (syncFromSheetOptimised envC4w
      { running := false, db := [("9", ⟨LIFETIME_UNTIL, 2000⟩)], roles := ["9"] }).2.roles :=
  @claim_C4_grace envC4w
    { running := false, db := [("9", ⟨LIFETIME_UNTIL, 2000⟩)], roles := ["9"] }
    [("1", false)] "9" ⟨LIFETIME_UNTIL, 2000⟩ ⟨"9", 10⟩
    rfl rfl (fun _ => rfl) (by simp) rfl (by decide)
    (by decide) (by decide) rfl

/-- C9: for a member who is approved in the roster, present on the
platform, and whose pre-pass stored `vipUntil` is non-zero, below
`LIFETIME` and in the past, a single pass completes with the stored record
at `LIFETIME` (written by the grant phase) but the platform role absent:
the expiry phase iterates the pre-pass store snapshot, still sees the old
expired `vipUntil`, and removes the role the grant phase just added. -/
theorem claim_C9_regrant_then_expire {env : Env} {st : St} {elig : EligMap}
    {id : String} {r : Row} {m : Member}
    (hrun : st.running = false)
    (helig : getEligibilityMap env.rows = .ok elig)
    (hg : ∀ x, env.grantFails x = false)
    (hnd : (st.db.map Prod.fst).Nodup)
    (hb : (id, true) ∈ elig)
    (hm : fetchMemberSafe env.guild id = some m)
    (hv : dbGet st.db id = some r)
    (h0 : r.vip_until ≠ 0)
    (hL : r.vip_until < LIFETIME_UNTIL)
    (hpast : r.vip_until ≤ env.now)
    (hrf : env.removeFails id = false) :
    (∃ s, (syncFromSheetOptimised env st).1 = .ok (.done s)) ∧
    (∃ t, dbGet (syncFromSheetOptimised env st).2.db id =
      some ⟨LIFETIME_UNTIL, t⟩) ∧
    id ∉ (syncFromSheetOptimised env st).2.roles := by
  obtain ⟨n1, n2, n3, st1, st2, st3, h1, h2, h3, hsync⟩ :=
    syncFromSheetOptimised_run hrun helig hg
  have hel_nd := getEligibilityMap_nodup helig
  obtain ⟨hgd, _⟩ := grantPhase_effect hg hel_nd hb hm 0 { st with running := true }
  rw [h1] at hgd
  have hgd' : dbGet st1.db id =
      some ⟨LIFETIME_UNTIL, svlTrial (dbGet st.db id) m.joined env.now⟩ := hgd
  have heg : eligGet elig id = some true := eligGet_of_mem hel_nd hb
  obtain ⟨hdd, _⟩ := @downgradePhase_frame env.guild env.grantFails env.removeFails
    env.now elig (lifetimeKeys st.db) id (Or.inl heg) 0 st1
  rw [h2] at hdd
  have hdb32 : st3.db = st2.db := by
    have hst := (@expiryPhase_state env.guild env.removeFails env.now st.db 0 st2).1
    rw [h3] at hst
    exact hst
  have hrm : id ∉ st3.roles := by
    have hx := @expiryPhase_removes env.guild env.removeFails env.now st.db id r m
      hnd (mem_of_dbGet hv) h0
      (by omega) (by omega) hm hrf 0 st2
    rw [h3] at hx
    exact hx
  refine ⟨⟨_, by rw [hsync]⟩, ?_, ?_⟩
  · refine ⟨svlTrial (dbGet st.db id) m.joined env.now, ?_⟩
    rw [hsync]
    show dbGet st3.db id = _
    rw [hdb32, hdd]
    exact hgd'
  · rw [hsync]
    exact hrm

def envC9w : Env :=
  { rows := [["discord_id", "lifetime_vip"], ["5", "YES"]]
    guild := [⟨"5", 10⟩]
    now := 5000
    grantFails := fun _ => false
    removeFails := fun _ => false }

/-- Witness for C9 at a concrete approved member with an expired record. -/
theorem claim_C9_witness :
    (∃ s, (syncFromSheetOptimised envC9w
      { running := false, db := [("5", ⟨100, 200⟩)], roles := [] }).1 =
      .ok (.done s)) ∧
    (∃ t, dbGet (syncFromSheetOptimised envC9w
      { running := false, db := [("5", ⟨100, 200⟩)], roles := [] }).2.db "5" =
      some ⟨LIFETIME_UNTIL, t⟩) ∧
    "5" ∉ (syncFromSheetOptimised envC9w
      { running := false, db := [("5", ⟨100, 200⟩)], roles := [] }).2.roles :=
  @claim_C9_regrant_then_expire envC9w
    { running := false, db := [("5", ⟨100, 200⟩)], roles := [] }
    [("5", true)] "5" ⟨100, 200⟩ ⟨"5", 10⟩
    rfl rfl (fun _ => rfl) (by simp) (List.mem_cons_self _ _) rfl rfl
    (by decide) (by decide) (by decide) rfl

def envC3cx : Env :=
  { rows := [["discord_id", "lifetime_vip"], ["1", "YES"]]
    guild := [⟨"1", 10⟩, ⟨"2", 5⟩]
    now := 5000
    grantFails := fun _ => false
    removeFails := fun _ => false }

/-- C3 counterexample: running the pass twice over the same roster with no
external change, the second run re-counts the approved member "1"
(`lifetimeEnsured` increments for every approved fetchable member, not just
transitions) and the expired member "2" (`expiredRemoved` counts every
qualifying snapshot row, with no store write to stop it recurring): the
second-run summary is (1, 0, 1), not all-zero. -/
theorem claim_C3_counterexample :
    (syncFromSheetOptimised envC3cx (syncFromSheetOptimised envC3cx
      { running := false, db := [("2", ⟨50, 50⟩)], roles := ["2"] }).2).1 =
      .ok (.done ⟨1, 0, 1, 1⟩) ∧
    ((1 : Nat) = 0 ∧ (0 : Nat) = 0 ∧ (1 : Nat) = 0 → False) := by
  exact ⟨rfl, by decide⟩

/-- C3 (amended): running the pass twice in succession with no external
state change yields a second run that performs no further store
transitions — its `lifetimeDowngraded` count is zero and it leaves the
store exactly as the first run left it — but `lifetimeEnsured` and
`expiredRemoved` re-count members that still match their phase's filter
and need not be zero (see the counterexample). -/
theorem claim_C3_idempotent_store {env : Env} {st : St} {elig : EligMap}
    (hrun : st.running = false)
    (helig : getEligibilityMap env.rows = .ok elig)
    (hg : ∀ x, env.grantFails x = false)
    (hnd : (st.db.map Prod.fst).Nodup)
    (hbt : ∀ p ∈ st.db, p.2.trial_until < LIFETIME_UNTIL)
    (hnow : env.now + ONE_MONTH < LIFETIME_UNTIL)
    (hguild : ∀ mb ∈ env.guild, mb.joined + ONE_MONTH < LIFETIME_UNTIL) :
    ∃ s2, (syncFromSheetOptimised env (syncFromSheetOptimised env st).2).1 =
        .ok (.done s2) ∧
      s2.lifetimeDowngraded = 0 ∧
      (syncFromSheetOptimised env (syncFromSheetOptimised env st).2).2.db =
        (syncFromSheetOptimised env st).2.db := by
  obtain ⟨n1, n2, n3, st1, st2, st3, h1, h2, h3, hsync⟩ :=
    syncFromSheetOptimised_run hrun helig hg
  have hel_nd := getEligibilityMap_nodup helig
  have hdb32 : st3.db = st2.db := by
    have hst := (@expiryPhase_state env.guild env.removeFails env.now st.db 0 st2).1
    rw [h3] at hst
    exact hst
  have hnd1 : (st1.db.map Prod.fst).Nodup := by
    have hx := @grantPhase_nodup env.guild env.grantFails env.now
      elig 0 { st with running := true } hnd
    rw [h1] at hx
    exact hx
  have hnd2 : (st2.db.map Prod.fst).Nodup := by
    have hx := @downgradePhase_nodup env.guild env.grantFails env.removeFails env.now
      elig (lifetimeKeys st.db) 0 st1 hnd1
    rw [h2] at hx
    exact hx
  have hnd3 : (st3.db.map Prod.fst).Nodup := by
    rw [hdb32]
    exact hnd2
  have hA : ∀ id m, (id, true) ∈ elig → fetchMemberSafe env.guild id = some m →
      ∃ t, dbGet st3.db id = some ⟨LIFETIME_UNTIL, t⟩ ∧ t ≠ 0 := by
    intro id m hbmem hm
    obtain ⟨hgd, _⟩ := grantPhase_effect hg hel_nd hbmem hm 0 { st with running := true }
    rw [h1] at hgd
    have hgd' : dbGet st1.db id =
        some ⟨LIFETIME_UNTIL, svlTrial (dbGet st.db id) m.joined env.now⟩ := hgd
    have heg : eligGet elig id = some true := eligGet_of_mem hel_nd hbmem
    obtain ⟨hdd, _⟩ := @downgradePhase_frame env.guild env.grantFails env.removeFails
      env.now elig (lifetimeKeys st.db) id (Or.inl heg) 0 st1
    rw [h2] at hdd
    refine ⟨svlTrial (dbGet st.db id) m.joined env.now, ?_, svlTrial_ne_zero _ _ _⟩
    rw [hdb32, hdd]
    exact hgd'
  have hB : ∀ id ∈ lifetimeKeys st3.db,
      eligGet elig id = some true ∨ fetchMemberSafe env.guild id = none := by
    intro id hidml
    by_cases heg : eligGet elig id = some true
    · exact Or.inl heg
    · refine Or.inr ?_
      cases hf : fetchMemberSafe env.guild id with
      | none => rfl
      | some m =>
        exfalso
        obtain ⟨rr, hrrmem, hrrge⟩ := mem_lifetimeKeys.mp hidml
        have hrrget : dbGet st3.db id = some rr := dbGet_of_mem hnd3 hrrmem
        have hnottrue : (id, true) ∉ elig := not_mem_of_eligGet_ne hel_nd heg
        obtain ⟨hgd, _⟩ := @grantPhase_frame env.guild env.grantFails env.now elig id
          (Or.inl hnottrue) 0 { st with running := true }
        rw [h1] at hgd
        have hgd' : dbGet st1.db id = dbGet st.db id := hgd
        by_cases hml : id ∈ lifetimeKeys st.db
        · by_cases ht : (ensureRowPure (dbGet st1.db id) m.joined env.now).trial_until >
              env.now
          · obtain ⟨hdd, _⟩ := downgradePhase_grace hg (lifetimeKeys_nodup hnd) hml heg
              hf 0 st1 ht
            rw [h2] at hdd
            have hexlt : (ensureRowPure (dbGet st1.db id) m.joined
                env.now).trial_until < LIFETIME_UNTIL := by
              apply ensureRowPure_trial_lt
              · intro rr2 hrr2
                rw [hgd'] at hrr2
                exact hbt (id, rr2) (mem_of_dbGet hrr2)
              · exact hguild m (fetchMemberSafe_mem hf)
              · exact hnow
            rw [hdb32, hdd] at hrrget
            have hrr2 : rr = ⟨(ensureRowPure (dbGet st1.db id) m.joined
                env.now).trial_until,
                (ensureRowPure (dbGet st1.db id) m.joined env.now).trial_until⟩ :=
              (Option.some.inj hrrget).symm
            rw [hrr2] at hrrge
            dsimp only at hrrge
            omega
          · have hdd := @downgradePhase_expired env.guild env.grantFails
              env.removeFails env.now elig (lifetimeKeys st.db) id m hg
              (lifetimeKeys_nodup hnd) hml heg hf 0 st1 ht
            rw [h2] at hdd
            rw [hdb32, hdd] at hrrget
            have hrr2 : rr = ⟨0, (ensureRowPure (dbGet st1.db id) m.joined
                env.now).trial_until⟩ :=
              (Option.some.inj hrrget).symm
            rw [hrr2] at hrrge
            dsimp only at hrrge
            exact absurd hrrge (by decide)
        · obtain ⟨hdd, _⟩ := @downgradePhase_frame env.guild env.grantFails
            env.removeFails env.now elig (lifetimeKeys st.db) id (Or.inr hml) 0 st1
          rw [h2] at hdd
          have hfin : dbGet st.db id = some rr := by
            rw [← hgd', ← hdd, ← hdb32]
            exact hrrget
          exact hml (mem_lifetimeKeys.mpr ⟨rr, mem_of_dbGet hfin, hrrge⟩)
  rw [hsync]
  obtain ⟨m1, m2, m3, u1, u2, u3, g1, g2, g3, hsync2⟩ :=
    @syncFromSheetOptimised_run env { st3 with running := false } _ rfl helig hg
  have hu1db : u1.db = st3.db := by
    have hx := @grantPhase_db_noop env.guild env.grantFails env.now elig 0
      { ({ st3 with running := false } : St) with running := true }
      (fun id m hbm hm => hA id m hbm hm)
    rw [g1] at hx
    exact hx
  have hB' : ∀ id ∈ lifetimeKeys ({ st3 with running := false } : St).db,
      eligGet elig id = some true ∨ fetchMemberSafe env.guild id = none := hB
  have hdpnoop := @downgradePhase_noop env.guild env.grantFails env.removeFails
    env.now elig (lifetimeKeys ({ st3 with running := false } : St).db) hB' 0 u1
  have hcomb := hdpnoop.symm.trans g2
  have hfst := congrArg Prod.fst hcomb
  have hsnd := congrArg Prod.snd hcomb
  simp only [Except.ok.injEq] at hfst
  simp only at hsnd
  have hu3db : u3.db = u2.db := by
    have hst := (@expiryPhase_state env.guild env.removeFails env.now
      ({ st3 with running := false } : St).db 0 u2).1
    rw [g3] at hst
    exact hst
  refine ⟨⟨m1, m2, m3, elig.length⟩, ?_, ?_, ?_⟩
  · rw [hsync2]
  · show m2 = 0
    exact hfst.symm
  · rw [hsync2]
    show u3.db = ({ st3 with running := false } : St).db
    rw [hu3db, ← hsnd, hu1db]

def envC3w : Env :=
  { rows := [["discord_id", "lifetime_vip"], ["1", "YES"]]
    guild := [⟨"1", 10⟩, ⟨"2", 5⟩]
    now := 5000
    grantFails := fun _ => false
    removeFails := fun _ => false }

/-- Witness for the amended C3 at a concrete double pass. -/
theorem claim_C3_witness :
    ∃ s2, (syncFromSheetOptimised envC3w (syncFromSheetOptimised envC3w
        { running := false, db := [("2", ⟨50, 50⟩)], roles := ["2"] }).2).1 =
      .ok (.done s2) ∧
    s2.lifetimeDowngraded = 0 ∧
    (syncFromSheetOptimised envC3w (syncFromSheetOptimised envC3w
        { running := false, db := [("2", ⟨50, 50⟩)], roles := ["2"] }).2).2.db =
      (syncFromSheetOptimised envC3w
        { running := false, db := [("2", ⟨50, 50⟩)], roles := ["2"] }).2.db :=
  claim_C3_idempotent_store rfl rfl (fun _ => rfl) (by simp)
    (by
      intro p hp
      have hp' : p = ("2", ⟨50, 50⟩) := by simpa using hp
      rw [hp']
      decide)
    (by decide) (by decide)

end ScalpX
